import Mathlib

/-!
# A verification development for the BrandGPT ingestion/retrieval core

This file shallowly embeds the algorithmic core of the `brandgpt` repository
(the crawler, the chunkers, the structural JSON-to-prose converter, the
vector-store access layer, the reranker, the staged RAG pipeline and the
ingestion coordinator) as executable Lean definitions, and proves or refutes
the behavioural claims stated about it.

Conventions used throughout:
* Python `str` is modelled by Lean `String`; `len` is `String.length`
  (both count Unicode code points).
* Python `int` is modelled by `Int` where sign matters, `Nat` where the
  source can only produce non-negative values.
* External collaborators (HTTP fetches, the embedding model, the Qdrant
  client, the cross-encoder scorer, the LLM generator, `json.loads`) are
  modelled as oracle parameters: an `Except`/`Option` value standing for the
  external call's outcome.  Everything the repository itself computes is
  translated from the source.
* Recursions whose termination argument is not structural are given an
  explicit fuel parameter that the top-level entry points instantiate with a
  provably sufficient bound; the fuel-exhausted branches are unreachable at
  those entry points.
-/

/-! ## Python string primitives -/

/-- The whitespace set of Python's `str.strip`. -/
def isPyWs (c : Char) : Bool :=
  c = ' ' || c = '\t' || c = '\n' || c = '\r' || c = '\x0b' || c = '\x0c'

/-- Python `str.strip()`: remove leading and trailing whitespace. -/
def pyStrip (s : String) : String :=
  ⟨((s.data.dropWhile isPyWs).reverse.dropWhile isPyWs).reverse⟩

/-- Python `sep.join(parts)`. -/
def pyJoin (sep : String) : List String → String
  | [] => ""
  | a :: t => t.foldl (fun r x => r ++ sep ++ x) a

/-- Python `str.lower()` (ASCII level, which is all the source feeds it). -/
def pyLower (s : String) : String := ⟨s.data.map Char.toLower⟩

def pyTitleGo : Bool → List Char → List Char
  | _, [] => []
  | prevAlpha, c :: t =>
    if c.isAlpha then
      (if prevAlpha then c.toLower else c.toUpper) :: pyTitleGo true t
    else
      c :: pyTitleGo false t

/-- Python `str.title()`: the first letter of every maximal alphabetic run is
upper-cased, the rest lower-cased (ASCII level). -/
def pyTitle (s : String) : String := ⟨pyTitleGo false s.data⟩

/-- `key.replace('_', ' ').title()` — the key "humanisation" used all over the
JSON converter. -/
def humanizeKey (k : String) : String :=
  pyTitle ⟨k.data.map (fun c => if c = '_' then ' ' else c)⟩

/-- `key.replace('_', ' ')` without title-casing (used by the overview). -/
def underscoreToSpace (k : String) : String :=
  ⟨k.data.map (fun c => if c = '_' then ' ' else c)⟩

/-- Python `str(b)` for a `bool`: `"True"` / `"False"`. -/
def pyStrBool (b : Bool) : String := if b then "True" else "False"

/-- Character-list prefix test (used to model literal-pattern matching). -/
def isPrefixL : List Char → List Char → Bool
  | [], _ => true
  | _ :: _, [] => false
  | a :: s, b :: t => a = b && isPrefixL s t

/-- Whether the literal pattern `pat` occurs anywhere in `l`
(Python `re.search(re.escape(pat), text)` for a non-empty literal pattern). -/
def occursAux (pat : List Char) : List Char → Bool
  | [] => isPrefixL pat []
  | c :: t => isPrefixL pat (c :: t) || occursAux pat t

def reSearch (pat text : String) : Bool := occursAux pat.data text.data

/-- Python `text.endswith(suffix)`. -/
def pyEndsWith (s suffix : String) : Bool :=
  isPrefixL suffix.data.reverse s.data.reverse

/-- `re.split` on an escaped (hence literal) non-empty separator, written with
explicit fuel; every step consumes at least one character, so
`text.length` fuel never runs out. -/
def splitOnAuxL (sep : List Char) : Nat → List Char → List Char → List (List Char)
  | 0, rest, acc => [acc.reverse ++ rest]    -- unreachable at fuel = text length
  | _ + 1, [], acc => [acc.reverse]
  | fuel + 1, c :: t, acc =>
    if isPrefixL sep (c :: t) then
      acc.reverse :: splitOnAuxL sep fuel ((c :: t).drop sep.length) []
    else
      splitOnAuxL sep fuel t (c :: acc)

def pySplit (text sep : String) : List String :=
  if sep = "" then [text]    -- never used with an empty separator
  else (splitOnAuxL sep.data text.data.length text.data []).map fun l => ⟨l⟩

/-- Association-list lookup, modelling Python `dict.get` on string keys. -/
def lookupStr (l : List (String × String)) (k : String) : Option String :=
  (l.find? (fun e => e.1 = k)).map (·.2)

/-! ## Configuration (`brandgpt/config/settings.py` defaults) -/

def chunkSizeSetting : Int := 1000
def chunkOverlapSetting : Int := 200
def rerankerTopKSetting : Int := 5
def rerankerCandidatesSetting : Nat := 20
def maxScrapeDepthSetting : Nat := 3
def maxLinksPerPageSetting : Nat := 20

-- quick sanity checks of the string primitives
example : pyStrip "  a b \n" = "a b" := by decide
example : humanizeKey "contact_info" = "Contact Info" := by decide
example : pyTitle "x123y" = "X123Y" := by decide
example : pyJoin ", " ["a", "b", "c"] = "a, b, c" := by decide
example : pySplit "a. b. c" ". " = ["a", "b", "c"] := by decide
example : reSearch " " "ab cd" = true := by decide
example : pyEndsWith "report.PDF" ".PDF" = true := by decide

/-! ## JSON values

`brandgpt/ingestion/enhanced_json_processor.py` dispatches on the runtime type
of parsed JSON values.  We embed those values as an inductive type.  JSON
floats are not modelled (none of the claims under study involve them); JSON
ints, strings, booleans, null, arrays and objects are.  A Python `dict`
iterates in insertion order, so an object is an association list. -/

inductive JValue where
  | jstr (s : String)
  | jint (n : Int)
  | jbool (b : Bool)
  | jnull
  | jlist (items : List JValue)
  | jdict (entries : List (String × JValue))

/-- `isinstance(item, (str, int, float, bool))`.  Note Python's `bool` is a
subclass of `int`. -/
def isSimple : JValue → Bool
  | .jstr _ | .jint _ | .jbool _ => true
  | _ => false

def isStr : JValue → Bool
  | .jstr _ => true
  | _ => false

def isDict : JValue → Bool
  | .jdict _ => true
  | _ => false

/-- Python `str(v)` for the simple values the converter feeds it (the call
sites guard on `isSimple`, plus `str(None) = "None"`); containers never reach
it. -/
def pyStrSimple : JValue → String
  | .jstr s => s
  | .jint n => toString n
  | .jbool b => pyStrBool b
  | .jnull => "None"
  | _ => ""    -- unreachable: call sites only pass simple values

def strVal : JValue → String
  | .jstr s => s
  | _ => ""    -- unreachable: call site guards on `isStr`

def indentOf (level : Nat) : String := ⟨List.replicate (2 * level) ' '⟩

/-! ### `EnhancedJSONProcessor` value-to-text rendering

The mutual functions below are `_convert_value_to_text`, `_dict_to_text` and
`_process_list`.  List iterations that the source writes with `enumerate` or
slices (`value[:5]`, `items[:3]`) are written as structural helpers carrying
the index and the remaining cap, so that the whole group is structurally
recursive (and hence kernel-computable).

Two shape adjustments keep the recursion structural without changing meaning:
* `_dict_to_text data ctx level` appears inside the group as
  `pyJoin "\n" (dictEntries data ctx level)`; this is exactly the source's
  `"\n".join(text_parts)`, and its `if not data: return ""` early exit is
  subsumed because joining the empty parts list already yields `""`.
  The standalone `dictToText` wrapper is defined after the group.
* `_process_list` is inlined at its sole call site (the list branch of the
  `_dict_to_text` loop); its `if not items: return ""` early exit is likewise
  subsumed by that call site's non-emptiness guard. -/

mutual

/-- `EnhancedJSONProcessor._convert_value_to_text`.

In Python `bool` is a subclass of `int`, so `isinstance(value, (int, float))`
captures booleans *before* the `isinstance(value, bool)` branch is reached:
`True`/`False` render through `str(value)` as `"True"`/`"False"` and the
`"yes"/"no"` branch of the source is dead code. -/
def convertValueToText : JValue → String → String
  | .jstr s, _ => s
  | .jint n, _ => toString n
  | .jbool b, _ => pyStrBool b    -- taken by the (int, float) branch: str(True) = "True"
  | .jnull, _ => "None"           -- final else: str(None)
  | .jlist [], _ => "none"
  | .jlist [x], ctx => convertValueToText x ctx
  | .jlist (a :: b :: rest), ctx =>
    if (a :: b :: rest).all isStr then pyJoin ", " ((a :: b :: rest).map strVal)
    else pyJoin "; " (convertIndexed (a :: b :: rest) ctx 0 5)
  | .jdict entries, ctx => pyJoin "\n" (dictEntries entries ctx 0)

/-- The `"; ".join(... for i, item in enumerate(value[:5]))` loop. -/
def convertIndexed : List JValue → String → Nat → Nat → List String
  | [], _, _, _ => []
  | v :: t, ctx, i, cap =>
    match cap with
    | 0 => []
    | cap' + 1 =>
      convertValueToText v (ctx ++ "[" ++ toString i ++ "]") ::
        convertIndexed t ctx (i + 1) cap'

/-- The `for key, value in data.items()` loop of `_dict_to_text`, producing
`text_parts`.  The list branch is `_process_list` inlined (this loop is its
only caller). -/
def dictEntries : List (String × JValue) → String → Nat → List String
  | [], _, _ => []
  | (k, .jdict inner) :: t, ctx, level =>
    let keyFormatted := humanizeKey k
    let valuePath := if ctx = "" then k else ctx ++ "." ++ k
    let indent := indentOf level
    let rest := dictEntries t ctx level
    if !inner.isEmpty then    -- only process non-empty dicts
      let nested := pyJoin "\n" (dictEntries inner valuePath (level + 1))
      if nested ≠ "" then (indent ++ keyFormatted ++ ": " ++ nested) :: rest else rest
    else rest
  | (k, .jlist items) :: t, ctx, level =>
    let keyFormatted := humanizeKey k
    let valuePath := if ctx = "" then k else ctx ++ "." ++ k
    let indent := indentOf level
    let rest := dictEntries t ctx level
    if !items.isEmpty then    -- only process non-empty lists
      -- `_process_list(value, key_formatted, value_path, level)`, inlined:
      let header := indent ++ keyFormatted ++ ":"
      let parts :=
        if items.all isSimple then
          if items.length ≤ 5 then simpleBullets items valuePath indent
          else
            [indent ++ "  - " ++ pyJoin ", " ((items.take 3).map pyStrSimple) ++
             ", and " ++ toString (items.length - 3) ++ " more items"]
        else
          complexItems items valuePath indent level 0 3 ++
          (if items.length > 3 then
             [indent ++ "  ... and " ++ toString (items.length - 3) ++ " more items"]
           else [])
      let listText := pyJoin "\n" (header :: parts)
      if listText ≠ "" then listText :: rest else rest
    else rest
  | (k, v) :: t, ctx, level =>
    let keyFormatted := humanizeKey k
    let valuePath := if ctx = "" then k else ctx ++ "." ++ k
    let indent := indentOf level
    let rest := dictEntries t ctx level
    let formattedValue := convertValueToText v valuePath
    if formattedValue ≠ "" then (indent ++ keyFormatted ++ ": " ++ formattedValue) :: rest
    else rest

/-- The simple-items (`len(items) <= 5`) bullet loop of `_process_list`. -/
def simpleBullets : List JValue → String → String → List String
  | [], _, _ => []
  | v :: t, ctx, indent =>
    (indent ++ "  - " ++ convertValueToText v ctx) :: simpleBullets t ctx indent

/-- The complex-items loop of `_process_list`
(`for i, item in enumerate(items[:3])`). -/
def complexItems : List JValue → String → String → Nat → Nat → Nat → List String
  | [], _, _, _, _, _ => []
  | (.jdict inner) :: t, ctx, indent, level, i, cap =>
    match cap with
    | 0 => []
    | cap' + 1 =>
      let rest := complexItems t ctx indent level (i + 1) cap'
      let itemText := pyJoin "\n" (dictEntries inner (ctx ++ "[" ++ toString i ++ "]") (level + 1))
      if itemText ≠ "" then
        (indent ++ "  Item " ++ toString (i + 1) ++ ":") :: itemText :: rest
      else rest
  | item :: t, ctx, indent, level, i, cap =>
    match cap with
    | 0 => []
    | cap' + 1 =>
      (indent ++ "  - " ++ convertValueToText item (ctx ++ "[" ++ toString i ++ "]")) ::
        complexItems t ctx indent level (i + 1) cap'

end

/-- `EnhancedJSONProcessor._dict_to_text` (see the note above the mutual
block: the `if not data` early exit is subsumed by `"\n".join([]) = ""`). -/
def dictToText (entries : List (String × JValue)) (ctx : String) (level : Nat) : String :=
  pyJoin "\n" (dictEntries entries ctx level)

-- the three code-dispatch scenarios from the spec's value-to-text rules
example : convertValueToText (.jlist []) "" = "none" := by decide
example : convertValueToText (.jlist [.jstr "x", .jstr "y"]) "" = "x, y" := by decide
example : convertValueToText (.jint (-7)) "" = "-7" := by decide
example :
    dictToText [("name", .jstr "Acme"), ("size", .jint 3)] "" 0 =
      "Name: Acme\nSize: 3" := by decide

-- sanity checks against the source's value-to-text rules
example : convertValueToText (.jlist []) "" = "none" := by decide
example : convertValueToText (.jlist [.jstr "x", .jstr "y"]) "" = "x, y" := by decide
example : convertValueToText (.jint (-7)) "" = "-7" := by decide
example :
    dictToText [("name", .jstr "Acme"), ("size", .jint 3)] "" 0 =
      "Name: Acme\nSize: 3" := by decide
-- the spec's scenario: six simple strings render as the first three plus a count
example :
    dictToText [("tags", .jlist [.jstr "x", .jstr "y", .jstr "z",
                                 .jstr "w", .jstr "v", .jstr "u"])] "" 0 =
      "Tags:\n  - x, y, z, and 3 more items" := by decide

/-! ### `json.dumps` (used only for the `len(json.dumps(value)) > 200` size
gate of `_create_structured_chunks`) -/

def hexDigit (n : Nat) : Char :=
  if n < 10 then Char.ofNat ('0'.toNat + n) else Char.ofNat ('a'.toNat + (n - 10))

def hex4 (n : Nat) : String :=
  ⟨[hexDigit (n / 4096 % 16), hexDigit (n / 256 % 16), hexDigit (n / 16 % 16), hexDigit (n % 16)]⟩

/-- One character of Python `json.dumps` string escaping
(default `ensure_ascii=True`). -/
def jsonEscapeChar (c : Char) : String :=
  if c = '"' then "\\\""
  else if c = '\\' then "\\\\"
  else if c = '\n' then "\\n"
  else if c = '\r' then "\\r"
  else if c = '\t' then "\\t"
  else if c.toNat = 8 then "\\b"
  else if c.toNat = 12 then "\\f"
  else if c.toNat < 0x20 then "\\u" ++ hex4 c.toNat
  else if c.toNat < 0x7f then ⟨[c]⟩
  else if c.toNat ≤ 0xffff then "\\u" ++ hex4 c.toNat
  else    -- astral plane: surrogate pair
    "\\u" ++ hex4 (0xd800 + (c.toNat - 0x10000) / 0x400) ++
    "\\u" ++ hex4 (0xdc00 + (c.toNat - 0x10000) % 0x400)

def jsonEscape (s : String) : String := String.join (s.data.map jsonEscapeChar)

mutual

/-- Python `json.dumps` with its default separators `(', ', ': ')`. -/
def jsonDumps : JValue → String
  | .jstr s => "\"" ++ jsonEscape s ++ "\""
  | .jint n => toString n
  | .jbool b => if b then "true" else "false"
  | .jnull => "null"
  | .jlist items => "[" ++ dumpsItems items ++ "]"
  | .jdict entries => "\x7b" ++ dumpsEntries entries ++ "\x7d"

def dumpsItems : List JValue → String
  | [] => ""
  | [v] => jsonDumps v
  | v :: t => jsonDumps v ++ ", " ++ dumpsItems t

def dumpsEntries : List (String × JValue) → String
  | [] => ""
  | [(k, v)] => "\"" ++ jsonEscape k ++ "\": " ++ jsonDumps v
  | (k, v) :: t => "\"" ++ jsonEscape k ++ "\": " ++ jsonDumps v ++ ", " ++ dumpsEntries t

end

example : jsonDumps (.jdict [("a", .jint 1), ("b", .jlist [.jstr "x"])]) =
    "\x7b\"a\": 1, \"b\": [\"x\"]\x7d" := by decide

/-! ## Documents and metadata

LangChain's `Document` carries `page_content` and an open metadata mapping.
The metadata values the claims touch are all strings; numeric ids are
stringified here (the claims under study never read them back). -/

structure LCDocument where
  page_content : String
  metadata : List (String × String)
  deriving DecidableEq

/-! ### `EnhancedJSONProcessor._create_structured_chunks`

`process_object` first emits a chunk for the current object when its rendered
text is substantial, then walks the keys recursively.  To keep the recursion
structural, the emission part (which no longer recurses, `dictToText` being a
plain function) is factored out as `headChunk`, and `process_object obj path
ctx = headChunk obj path ctx ++ processKeys obj path ctx`; the recursive call
sites inside the group use that unfolding verbatim. -/

/-- The chunk-emission prologue of `process_object`. -/
def headChunk (meta : List (String × String)) (obj : List (String × JValue))
    (path parentCtx : String) : List LCDocument :=
  let objText := dictToText obj path 0
  if objText ≠ "" ∧ 50 < (pyStrip objText).length then
    let fullText :=
      if parentCtx ≠ "" then "Context: " ++ parentCtx ++ "\n\n" ++ objText else objText
    [{ page_content := fullText,
       metadata := meta ++
         [("json_path", if path = "" then "root" else path),
          ("context", parentCtx), ("chunk_type", "json_object")] }]
  else []

mutual

/-- The `for key, value in obj.items()` loop of `process_object`. -/
def processKeys (meta : List (String × String)) :
    List (String × JValue) → String → String → List LCDocument
  | [], _, _ => []
  | (k, .jdict inner) :: t, path, parentCtx =>
    let currentPath := if path = "" then k else path ++ "." ++ k
    let sectionCtx :=
      if parentCtx ≠ "" then parentCtx ++ " > " ++ humanizeKey k else humanizeKey k
    (if !inner.isEmpty then
       if 200 < (jsonDumps (.jdict inner)).length then    -- only separate large objects
         headChunk meta inner currentPath sectionCtx ++ processKeys meta inner currentPath sectionCtx
       else []
     else []) ++ processKeys meta t path parentCtx
  | (k, .jlist items) :: t, path, parentCtx =>
    let currentPath := if path = "" then k else path ++ "." ++ k
    let sectionCtx :=
      if parentCtx ≠ "" then parentCtx ++ " > " ++ humanizeKey k else humanizeKey k
    (if !items.isEmpty then
       if items.all isDict then
         processArrayItems meta items currentPath sectionCtx 0 5    -- first 5 items
       else []
     else []) ++ processKeys meta t path parentCtx
  | _ :: t, path, parentCtx => processKeys meta t path parentCtx

/-- The `for i, item in enumerate(value[:5])` loop of `process_object`. -/
def processArrayItems (meta : List (String × String)) :
    List JValue → String → String → Nat → Nat → List LCDocument
  | [], _, _, _, _ => []
  | (.jdict inner) :: t, currentPath, sectionCtx, i, cap =>
    match cap with
    | 0 => []
    | cap' + 1 =>
      let itemCtx := sectionCtx ++ " > Item " ++ toString (i + 1)
      let itemPath := currentPath ++ "[" ++ toString i ++ "]"
      (headChunk meta inner itemPath itemCtx ++ processKeys meta inner itemPath itemCtx) ++
        processArrayItems meta t currentPath sectionCtx (i + 1) cap'
  | _ :: t, currentPath, sectionCtx, i, cap =>
    match cap with
    | 0 => []
    | cap' + 1 =>
      -- non-dict items inside an all-dict array cannot occur; the source still
      -- guards with `isinstance(item, dict)` and emits nothing otherwise
      processArrayItems meta t currentPath sectionCtx (i + 1) cap'

end

/-- `EnhancedJSONProcessor.process_object` (see the note above). -/
def processObject (meta : List (String × String)) (obj : List (String × JValue))
    (path parentCtx : String) : List LCDocument :=
  headChunk meta obj path parentCtx ++ processKeys meta obj path parentCtx

/-- `EnhancedJSONProcessor._create_structured_chunks`:
`process_object(data, "", "Root")`. -/
def createStructuredChunks (meta : List (String × String))
    (data : List (String × JValue)) : List LCDocument :=
  processObject meta data "" "Root"

/-! ### `EnhancedJSONProcessor._create_overview` -/

/-- Whether `key.lower()` is one of the "name-like" keys whose scalar value the
overview quotes verbatim. -/
def isNameLikeKey (k : String) : Bool :=
  pyLower k = "name" || pyLower k = "title" || pyLower k = "description" || pyLower k = "summary"

/-- One iteration of the overview loop.  As everywhere in this module, Python's
`isinstance(value, (str, int, float))` admits booleans (a `bool` is an `int`),
and `str(True) = "True"`. -/
def overviewPart : String × JValue → Option String
  | (k, v) =>
    let keyFormatted := humanizeKey k
    match v with
    | .jdict inner =>
      some (keyFormatted ++ " contains information about: " ++
        pyJoin ", " ((inner.take 5).map (fun e => underscoreToSpace e.1)) ++
        (if inner.length > 5 then
           " (and " ++ toString (inner.length - 5) ++ " more fields)"
         else ""))
    | .jlist items =>
      if !items.isEmpty then
        let itemType :=
          match items.head? with
          | some (.jdict firstInner) =>
            "entries with " ++ pyJoin ", " ((firstInner.take 3).map (fun e => underscoreToSpace e.1))
          | _ => "items"
        some (keyFormatted ++ " contains " ++ toString items.length ++ " " ++ itemType)
      else none
    | .jstr s => if isNameLikeKey k then some (keyFormatted ++ ": " ++ s) else none
    | .jint n => if isNameLikeKey k then some (keyFormatted ++ ": " ++ toString n) else none
    | .jbool b => if isNameLikeKey k then some (keyFormatted ++ ": " ++ pyStrBool b) else none
    | .jnull => none

/-- `EnhancedJSONProcessor._create_overview` (its internal `try` can only fire
on hostile `__getattr__`-style objects, which JSON values are not). -/
def createOverview (data : List (String × JValue)) : String :=
  let parts := data.filterMap overviewPart
  if !parts.isEmpty then pyJoin ". " parts ++ "." else ""

example :
    createOverview [("name", .jstr "Acme"), ("items", .jlist [.jstr "a", .jstr "b"])] =
      "Name: Acme. Items contains 2 items." := by decide

/-! ## `RecursiveCharacterTextSplitter`

LangChain's recursive splitter as configured by this repository:
`length_function = len`, `keep_separator = True` (the class default, so
separators stay attached to the *following* fragment and merged chunks are
joined with the empty string), `strip_whitespace = True`, and literal
(escaped) separators.  The JSON processor uses separators
`["\n\n", "\n", ". ", " ", ""]`; the text/URL processors use
`["\n\n", "\n", ".", " ", ""]`. -/

def sepsJSON : List String := ["\n\n", "\n", ". ", " ", ""]
def sepsText : List String := ["\n\n", "\n", ".", " ", ""]

/-- The separator-selection loop at the top of `_split_text`: the first
separator that is empty or occurs in the text is chosen, and the remaining
suffix becomes `new_separators`. -/
def chooseSepGo (text : String) : List String → Option (String × List String)
  | [] => none
  | s :: rest =>
    if s = "" then some ("", [])
    else if reSearch s text then some (s, rest)
    else chooseSepGo text rest

def chooseSep (seps : List String) (text : String) : String × List String :=
  match chooseSepGo text seps with
  | some r => r
  | none => ((seps.getLast?).getD "", [])
  -- the fallback keeps the initial `separator = separators[-1]`; with an empty
  -- separator list the source would raise IndexError, and no caller passes one

/-- `_split_text_with_regex` with `keep_separator=True`: split on the literal
separator and re-attach each separator occurrence to the fragment after it,
then drop empty fragments.  (The odd `len(_splits) % 2 == 0` case cannot arise
when splitting on a plain separator group.)  An empty separator yields the
character list. -/
def pySplitKeepSep (sep : String) (text : String) : List String :=
  if sep = "" then (text.data.map fun c => (⟨[c]⟩ : String)).filter (fun s => s ≠ "")
  else
    match pySplit text sep with
    | [] => []    -- `re.split` always returns at least one fragment
    | p :: ps => (p :: ps.map (fun q => sep ++ q)).filter (fun s => s ≠ "")

/-- `TextSplitter._join_docs`. -/
def joinDocs (docs : List String) (sep : String) : Option String :=
  let text := pyStrip (pyJoin sep docs)
  if text = "" then none else some text

/-- The `while` loop inside `_merge_splits` that pops leading fragments until
the running total fits within the overlap budget.  Totals are `Int`, as in the
source.  When `current_doc` is empty the loop guard is false (the running
total is then `0`), so the `[]` equation returning the pair unchanged is only
a totality filler, not behaviour. -/
def popOverlap (cs co sepLen dLen : Int) : List String → Int → List String × Int
  | [], total => ([], total)
  | c :: rest, total =>
    if total > co ∨ (total + dLen + sepLen > cs ∧ total > 0) then
      popOverlap cs co sepLen dLen rest
        (total - ((c.length : Int) + if rest.isEmpty then 0 else sepLen))
    else (c :: rest, total)

/-- One iteration of the `for d in splits` loop of `TextSplitter._merge_splits`
over the state `(docs, current_doc, total)`. -/
def mergeOne (cs co : Int) (sep : String) (st : List String × List String × Int)
    (d : String) : List String × List String × Int :=
  let (docs, cur, total) := st
  let dLen : Int := d.length
  let sepLen : Int := sep.length
  let (docs, cur, total) :=
    if total + dLen + (if cur.isEmpty then 0 else sepLen) > cs then
      if !cur.isEmpty then
        let docs :=
          match joinDocs cur sep with
          | some doc => docs ++ [doc]
          | none => docs
        let (cur, total) := popOverlap cs co sepLen dLen cur total
        (docs, cur, total)
      else (docs, cur, total)
    else (docs, cur, total)
  let cur := cur ++ [d]
  (docs, cur, total + dLen + (if cur.length > 1 then sepLen else 0))

/-- `TextSplitter._merge_splits` (the oversize-chunk `logger.warning` is pure
logging and is not modelled). -/
def mergeSplits (cs co : Int) (splits : List String) (sep : String) : List String :=
  let (docs, cur, _) := splits.foldl (mergeOne cs co sep) ([], [], 0)
  match joinDocs cur sep with
  | some doc => docs ++ [doc]
  | none => docs

/-- One iteration of the `for s in splits` loop of `_split_text` over the
state `(final_chunks, _good_splits)`: good (short) fragments are collected;
an oversized fragment flushes the pending merge and is either appended whole
(no separators left) or split recursively — `handleBig` is that recursive
call, supplied by `splitTextFuel`. -/
def goSplitsStep (cs co : Int) (joinSep : String) (handleBig : String → List String)
    (st : List String × List String) (s : String) : List String × List String :=
  let (final, good) := st
  if (s.length : Int) < cs then (final, good ++ [s])
  else
    let final := final ++ (if !good.isEmpty then mergeSplits cs co good joinSep else [])
    (final ++ handleBig s, [])

/-- The `for s in splits` loop of `_split_text`, with the trailing flush of
the pending good fragments. -/
def goSplits (cs co : Int) (joinSep : String) (handleBig : String → List String)
    (splits : List String) : List String :=
  let (final, good) := splits.foldl (goSplitsStep cs co joinSep handleBig) ([], [])
  final ++ (if !good.isEmpty then mergeSplits cs co good joinSep else [])

/-- `RecursiveCharacterTextSplitter._split_text`.  Every recursive call passes
the strict suffix `new_separators` of the current separator list, so the
recursion depth is bounded by the list length; `fuel` makes the bound explicit
and `splitText` below instantiates it with `seps.length`, which never runs out
(the zero-fuel branch is unreachable from the entry point). -/
def splitTextFuel (cs co : Int) : Nat → List String → String → List String
  | 0, _, _ => []
  | fuel + 1, seps, text =>
    let (sep, newSeps) := chooseSep seps text
    let splits := pySplitKeepSep sep text
    -- `_separator = "" if self._keep_separator else separator`
    goSplits cs co ""
      (fun s => if newSeps.isEmpty then [s] else splitTextFuel cs co fuel newSeps s)
      splits

/-- `RecursiveCharacterTextSplitter.split_text`. -/
def splitText (cs co : Int) (seps : List String) (text : String) : List String :=
  splitTextFuel cs co seps.length seps text

/-- `TextSplitter.split_documents` / `create_documents`: each output chunk of
`split_text` becomes a document carrying its source document's metadata
(`add_start_index` is off by default). -/
def splitDocuments (cs co : Int) (seps : List String) (docs : List LCDocument) :
    List LCDocument :=
  docs.flatMap fun d => (splitText cs co seps d.page_content).map fun c => ⟨c, d.metadata⟩

example : splitText 10 3 sepsText "aaa bbb. ccc ddd" = ["aaa bbb", ". ccc ddd"] := by decide
example : splitText 1000 200 sepsJSON "hello world" = ["hello world"] := by decide

/-! ## `EnhancedJSONProcessor.process`

`json.loads` is external; its outcome is the oracle `parsed : Option JValue`
(`none` = `json.JSONDecodeError`).  On a decode error the source returns
`self.text_splitter.split_text(content)` — a list of *bare strings*, not
`Document`s, although the function is annotated `-> List[LangchainDocument]`;
the sum below records which of the two shapes each element has.  A parse that
yields a non-dict value (list, scalar) reaches `data.items()` inside
`_create_structured_chunks` and raises `AttributeError`, which the final
`except Exception: raise` re-raises. -/

inductive PyChunk where
  | doc (d : LCDocument)
  | str (s : String)
  deriving DecidableEq

def isBareStr : PyChunk → Bool
  | .str _ => true
  | .doc _ => false

/-- The chunks produced on the structured (top-level dict) path of `process`,
before being wrapped in the dynamic result: structured chunks, an overview
chunk inserted first when non-empty, then the size post-pass that re-splits
only chunks longer than `chunk_size * 2`. -/
def enhancedProcessChunks (cs co : Int) (data : List (String × JValue))
    (meta : List (String × String)) : List LCDocument :=
  let enhanced := meta ++ [("content_type", "json"), ("processor", "enhanced_json")]
  let structured := createStructuredChunks enhanced data
  let overviewText := createOverview data
  let withOverview :=
    if overviewText ≠ "" then
      ({ page_content := "Complete Overview:\n\n" ++ overviewText,
         metadata := enhanced ++ [("chunk_type", "overview")] } : LCDocument) :: structured
    else structured
  withOverview.flatMap fun chunk =>
    if (chunk.page_content.length : Int) > cs * 2 then
      splitDocuments cs co sepsJSON [chunk]    -- split large chunks
    else [chunk]

/-- `EnhancedJSONProcessor.process`. -/
def enhancedProcess (cs co : Int) (parsed : Option JValue) (content : String)
    (meta : List (String × String)) : Except String (List PyChunk) :=
  match parsed with
  | none =>
    -- json.JSONDecodeError → "Fallback: treat as regular text";
    -- `split_text` returns bare strings
    .ok ((splitText cs co sepsJSON content).map PyChunk.str)
  | some (.jdict data) => .ok ((enhancedProcessChunks cs co data meta).map PyChunk.doc)
  | some _ => .error "AttributeError: object has no attribute 'items'"

/-! ## `VectorStore` (`brandgpt/core/vector_store.py`)

The Qdrant client and the embedding service are external.  `add_documents`
attaches the payload `{text, session_id, user_id, **metadata}` to each point;
the point ids come from `uuid.uuid4()`, modelled as the oracle list `ids`. -/

structure StoredPoint where
  id : String
  text : String
  session_id : String
  user_id : Int
  metadata : List (String × String)
  deriving DecidableEq

/-- The points built by `VectorStore.add_documents(documents, session_id,
user_id)` (the subsequent `client.upsert` stores exactly these). -/
def addDocumentsPoints (documents : List LCDocument) (ids : List String)
    (sessionId : String) (userId : Int) : List StoredPoint :=
  (documents.zip ids).map fun e =>
    { id := e.2, text := e.1.page_content, session_id := sessionId,
      user_id := userId, metadata := e.1.metadata }

/-- `filter_conditions` as built by `VectorStore.search`: the guard is
`if user_id:` — Python *truthiness* — so both `None` and `0` leave the filter
empty. -/
def filterConditions (userId : Option Int) : Option Int :=
  match userId with
  | none => none
  | some u => if u = 0 then none else some u

/-- Modelled from the spec: the external vector index's `search` operation —
"hits carry id, score, payload; only vectors matching `user_filter` returned"
(spec §6).  Similarity ranking and the score threshold belong to the external
service and are abstracted away: `store` is the stored points in ranked order
and all are taken to clear the threshold.  The claim at issue concerns only
the user filter. -/
def qdrantSearch (store : List StoredPoint) (flt : Option Int) (limit : Nat) :
    List StoredPoint :=
  let matching : List StoredPoint :=
    match flt with
    | some u => store.filter (fun p => p.user_id = u)
    | none => store
  matching.take limit

/-- A `VectorStore.search` result entry: `text` plus the payload minus the
text (which carries `user_id` and `session_id`). -/
structure SearchHit where
  id : String
  text : String
  user_id : Int
  session_id : String
  deriving DecidableEq

/-- `VectorStore.search` (the query embedding is external and irrelevant to the
filter behaviour). -/
def vsSearch (store : List StoredPoint) (userId : Option Int) (limit : Nat) :
    List SearchHit :=
  (qdrantSearch store (filterConditions userId) limit).map fun p =>
    { id := p.id, text := p.text, user_id := p.user_id, session_id := p.session_id }

/-- A vector store populated by a sequence of `add_documents` calls from any
mixture of sessions and users. -/
def mkStore (batches : List (List LCDocument × List String × String × Int)) :
    List StoredPoint :=
  batches.flatMap fun b => addDocumentsPoints b.1 b.2.1 b.2.2.1 b.2.2.2

/-! ## `URLScraper` (`brandgpt/ingestion/url_processor.py`)

The web is external: `web` is a finite map from URL to the page a successful
`GET` + `BeautifulSoup` pass would produce; a URL absent from `web` stands for
any fetch error (timeout, HTTP error, parse failure), which the source logs
and skips.  A `PageData` carries the page's title (pre-`strip`), the text of
its `p`/`h1..h6`/`li` elements in document order within the selected content
container, and its anchor targets after `urljoin` (so already absolute);
`urldefrag` and the same-domain filter are applied by the model, as in
`_get_links`.  The politeness `time.sleep` has no observable effect here. -/

structure PageData where
  title : String
  texts : List String
  links : List String
  deriving DecidableEq

structure CrawlRec where
  url : String
  title : String
  text : String
  depth : Nat
  deriving DecidableEq

structure ScrapeState where
  toVisit : List (String × Nat)
  visited : List String
  content : List CrawlRec
  deriving DecidableEq

abbrev Web := List (String × PageData)

def lookupWeb (web : Web) (u : String) : Option PageData :=
  (web.find? (fun p => p.1 = u)).map (·.2)

/-- `urllib.parse.urldefrag(u)[0]`: strip the fragment. -/
def urlDefrag (u : String) : String := ⟨u.data.takeWhile (fun c => c ≠ '#')⟩

/-- `urllib.parse.urlparse(u).netloc` for the absolute URLs the crawler
handles: the segment after `"://"` up to the next `/`, `?` or `#` (empty when
there is no scheme separator). -/
def netloc (u : String) : String :=
  match pySplit u "://" with
  | _ :: rest :: _ => ⟨rest.data.takeWhile (fun c => c ≠ '/' && c ≠ '?' && c ≠ '#')⟩
  | _ => ""

/-- `URLScraper._get_links`: defrag each link and keep those whose network
location matches the base URL's. -/
def getLinks (p : PageData) (baseUrl : String) : List String :=
  (p.links.map urlDefrag).filter (fun l => netloc l = netloc baseUrl)

/-- `URLScraper._extract_text`: per-element `get_text().strip()`, drop empties,
join with single spaces. -/
def extractCombined (p : PageData) : String :=
  pyJoin " " ((p.texts.map pyStrip).filter (fun s => s ≠ ""))

/-- One run of the `while to_visit:` loop of `URLScraper.scrape`, returning
the list of states observed at each loop head (the trace) together with the
final state.  Each iteration pops one frontier entry, so the loop count — and
hence the fuel needed — is bounded by the initial frontier plus everything
ever appended: a successful fetch appends at most `maxLinks` entries and each
URL is fetched at most once, giving the budget used by `scrape` below. -/
def scrapeRunT (web : Web) (maxDepth maxLinks : Nat) :
    Nat → ScrapeState → List ScrapeState × ScrapeState
  | 0, st => ([st], st)
  | fuel + 1, st =>
    match st.toVisit with
    | [] => ([st], st)
    | (url, d) :: rest =>
      if url ∈ st.visited ∨ maxDepth < d then
        -- `if url in self.visited_urls or current_depth > self.max_depth: continue`
        let next := scrapeRunT web maxDepth maxLinks fuel { st with toVisit := rest }
        (st :: next.1, next.2)
      else
        match lookupWeb web url with
        | none =>
          -- fetch error: logged and skipped, the crawl continues
          let next := scrapeRunT web maxDepth maxLinks fuel { st with toVisit := rest }
          (st :: next.1, next.2)
        | some p =>
          let visited := url :: st.visited
          let text := pyStrip (extractCombined p)
          let content :=
            if text ≠ "" then
              st.content ++ [{ url := url, title := pyStrip p.title, text := text, depth := d }]
            else st.content
          let newEntries :=
            if d < maxDepth then
              (((getLinks p url).take maxLinks).filter (fun l => l ∉ visited)).map
                (fun l => (l, d + 1))
            else []
          let next := scrapeRunT web maxDepth maxLinks fuel
            { toVisit := rest ++ newEntries, visited := visited, content := content }
          (st :: next.1, next.2)

/-- Fuel sufficient to drain any frontier: initial entries plus the most that
successful fetches can ever append, plus one for the final empty-frontier
check. -/
def scrapeBudget (web : Web) (st : ScrapeState) (maxLinks : Nat) : Nat :=
  st.toVisit.length + web.length * (maxLinks + 1) + 1

def initState (startUrl : String) : ScrapeState :=
  { toVisit := [(startUrl, 1)], visited := [], content := [] }

/-- `URLScraper.scrape(start_url)`: final state of the drained loop. -/
def scrape (web : Web) (startUrl : String) (maxDepth maxLinks : Nat) : ScrapeState :=
  (scrapeRunT web maxDepth maxLinks (scrapeBudget web (initState startUrl) maxLinks)
    (initState startUrl)).2

/-- The loop-head states of the same run (for stating frontier invariants). -/
def scrapeTrace (web : Web) (startUrl : String) (maxDepth maxLinks : Nat) :
    List ScrapeState :=
  (scrapeRunT web maxDepth maxLinks (scrapeBudget web (initState startUrl) maxLinks)
    (initState startUrl)).1

-- the spec's crawl scenario: seed A with links B and C, max_depth 2
def webABC : Web :=
  [("http://s.com/a", { title := "A", texts := ["ta"],
                        links := ["http://s.com/b", "http://s.com/c"] }),
   ("http://s.com/b", { title := "B", texts := ["tb"], links := [] }),
   ("http://s.com/c", { title := "C", texts := ["tc"], links := [] })]

example :
    (scrape webABC "http://s.com/a" 2 20).content.map (fun r => (r.url, r.depth)) =
      [("http://s.com/a", 1), ("http://s.com/b", 2), ("http://s.com/c", 2)] := by decide
example :
    (scrape webABC "http://s.com/a" 1 20).content.map (fun r => (r.url, r.depth)) =
      [("http://s.com/a", 1)] := by decide

/-! ## `Reranker` (`brandgpt/core/reranker.py`)

The cross-encoder is external: `modelAvailable` is whether `self.model` is
set, and `scores` is the outcome of `self.model.predict(pairs)` (scores are
compared only among themselves, so they are taken as `Int`; none of the
claims at issue depends on score arithmetic). -/

structure DocHit where
  id : String
  text : String
  score : Int
  rerank_score : Option Int := none
  metadata : List (String × String)
  deriving DecidableEq

/-- Python slice `l[:k]` for an `int` bound (negative bounds count from the
end). -/
def pySliceTo {α : Type} (k : Int) (l : List α) : List α :=
  if 0 ≤ k then l.take k.toNat else l.take (l.length - (-k).toNat)

/-- `documents[:top_k] if top_k else documents` — Python truthiness again:
`None` *and* `0` return the whole list. -/
def pyTruthySlice {α : Type} (k : Option Int) (l : List α) : List α :=
  match k with
  | none => l
  | some n => if n = 0 then l else pySliceTo n l

/-- Stable descending insertion by `rerank_score`.  Python's
`sorted(documents, key=..., reverse=True)` is a stable descending sort; a
stable sort's output is unique, so stable insertion produces the same list. -/
def insertDescBy (key : DocHit → Int) (x : DocHit) : List DocHit → List DocHit
  | [] => [x]
  | y :: t => if key y ≥ key x then y :: insertDescBy key x t else x :: y :: t

def stableSortDesc (key : DocHit → Int) (l : List DocHit) : List DocHit :=
  l.foldl (fun acc x => insertDescBy key x acc) []

/-- `Reranker.rerank`.  Inside the `try`, `top_k = top_k or
settings.reranker_top_k` re-binds a falsy `top_k` to the configured default
*before* scoring, so the `except` fallback slices with the re-bound value,
while the disabled/unavailable early return slices with the original one.
If `predict` returned fewer scores than documents, the un-scored documents
would lack the `rerank_score` key and the sort would raise `KeyError`, which
the same `except` catches. -/
def rerank (modelAvailable enabled : Bool) (scores : Except String (List Int))
    (topK : Option Int) (documents : List DocHit) : List DocHit :=
  if !modelAvailable || !enabled then pyTruthySlice topK documents
  else
    let topK' : Int :=
      match topK with
      | none => rerankerTopKSetting
      | some n => if n = 0 then rerankerTopKSetting else n
    match scores with
    | .error _ => pyTruthySlice (some topK') documents
    | .ok scoreList =>
      if scoreList.length < documents.length then pyTruthySlice (some topK') documents
      else
        let scored := (documents.zip scoreList).map fun e =>
          { e.1 with rerank_score := some e.2 }
        pySliceTo topK' (stableSortDesc (fun d => d.rerank_score.getD 0) scored)

/-! ## `RAGGraph` (`brandgpt/retrieval/rag_graph.py`)

The LangGraph workflow is a linear chain
`retrieve → rerank → prepare_context → generate`, i.e. sequential composition
of the four stage functions over the shared state.  `generatorCalled` is ghost
instrumentation (not a field of the source state): it records whether
`llm_service.generate_response` was invoked, so that "the generator is never
called" is expressible. -/

structure RAGStateL where
  query : String
  user_id : Option Int
  system_prompt : Option String
  retrieved_docs : List DocHit
  reranked_docs : List DocHit
  context : List String
  response : String
  error : Option String
  generatorCalled : Bool
  deriving DecidableEq

/-- `RAGGraph.retrieve_documents`; `searchResult` is the outcome of the
`vector_store.search` call (embedding plus Qdrant query). -/
def retrieveDocuments (searchResult : Except String (List DocHit))
    (st : RAGStateL) : RAGStateL :=
  match searchResult with
  | .ok docs => { st with retrieved_docs := docs }
  | .error e => { st with error := some e, retrieved_docs := [] }

/-- `RAGGraph.rerank_documents`.  The embedded `rerank` absorbs scorer
failures itself (its own `try`), so the surrounding `except`'s fallback
`retrieved_docs[:reranker_top_k]` is unreachable and not modelled. -/
def rerankDocuments (modelAvailable enabled : Bool)
    (scores : Except String (List Int)) (st : RAGStateL) : RAGStateL :=
  if st.retrieved_docs.isEmpty then { st with reranked_docs := [] }
  else
    { st with reranked_docs :=
        rerank modelAvailable enabled scores (some rerankerTopKSetting) st.retrieved_docs }

/-- One document's contribution to the context in
`RAGGraph.prepare_context`: skipped if its text is falsy, prefixed with the
source marker when the metadata carries a truthy `source`. -/
def contextEntry (d : DocHit) : Option String :=
  if d.text = "" then none
  else
    let src := (lookupStr d.metadata "source").getD ""
    if src ≠ "" then some ("[Source: " ++ src ++ "]\n" ++ d.text) else some d.text

def prepareContext (st : RAGStateL) : RAGStateL :=
  { st with context := st.reranked_docs.filterMap contextEntry }

def noRelevantInfoMsg : String :=
  "I couldn't find any relevant information to answer your question."

/-- `RAGGraph.generate_response`; `gen` is the outcome of the external
`llm_service.generate_response` call. -/
def generateResponse (gen : Except String String) (st : RAGStateL) : RAGStateL :=
  if st.context.isEmpty then { st with response := noRelevantInfoMsg }
  else
    match gen with
    | .ok r => { st with response := r, generatorCalled := true }
    | .error e =>
      { st with response := "An error occurred while generating the response: " ++ e,
                error := some e, generatorCalled := true }

/-- The final state of `RAGGraph.process_query`'s `graph.ainvoke`. -/
def processQueryState (searchResult : Except String (List DocHit))
    (modelAvailable enabled : Bool) (scores : Except String (List Int))
    (gen : Except String String) (query : String) (userId : Option Int)
    (systemPrompt : Option String) : RAGStateL :=
  generateResponse gen (prepareContext (rerankDocuments modelAvailable enabled scores
    (retrieveDocuments searchResult
      { query := query, user_id := userId, system_prompt := systemPrompt,
        retrieved_docs := [], reranked_docs := [], context := [],
        response := "", error := none, generatorCalled := false })))

structure QuerySource where
  text : String
  metadata : List (String × String)
  deriving DecidableEq

structure QueryResult where
  response : String
  sources : List QuerySource
  error : Option String
  deriving DecidableEq

/-- `RAGGraph.process_query`'s caller-facing packaging: response, up to 3
sources with text previews truncated to 200 characters, and the state's
error.  The stages are total, so the outer `except` is unreachable. -/
def processQuery (searchResult : Except String (List DocHit))
    (modelAvailable enabled : Bool) (scores : Except String (List Int))
    (gen : Except String String) (query : String) (userId : Option Int)
    (systemPrompt : Option String) : QueryResult :=
  let result := processQueryState searchResult modelAvailable enabled scores gen
    query userId systemPrompt
  { response := result.response,
    sources := (result.reranked_docs.take 3).map fun d =>
      { text := (⟨d.text.data.take 200⟩ : String) ++ "...", metadata := d.metadata },
    error := result.error }

/-! ## `IngestionPipeline` (`brandgpt/ingestion/pipeline.py`)

The document row and the temporary file are the state; the database session is
pure state here (`db.commit` failures are not modelled).  `parsed` is the
oracle for `json.loads` — both the pipeline's own JSON detection
(`json.loads(content.strip())`) and the processor's `json.loads(content)`
accept exactly the same texts, so one oracle serves both.  `pdfChunks` is the
external PDF extractor's outcome, and `external` the embed-and-upsert
outcome. -/

structure DocRecord where
  processed : String
  error_message : Option String
  deriving DecidableEq

structure PipeState where
  doc : Option DocRecord
  tempFileExists : Bool
  deriving DecidableEq

/-- `VectorStore.add_documents` as invoked with a processor result: its first
line, `texts = [doc.page_content for doc in documents]`, raises
`AttributeError` as soon as the list contains a bare string (which is what the
JSON decode-error fallback produces); otherwise the external embed-and-upsert
outcome decides. -/
def addDocumentsDyn (chunks : List PyChunk) (external : Except String Unit) :
    Except String Unit :=
  if chunks.any isBareStr then
    .error "AttributeError: 'str' object has no attribute 'page_content'"
  else external

/-- The routing body of `IngestionPipeline.process_file_from_path` (the inner
`try`): PDF by suffix, then JSON by suffix, then content-sniffed JSON, then
plain text. -/
def routeWork (cs co : Int) (filename : String) (parsed : Option JValue)
    (content : String) (meta : List (String × String))
    (pdfChunks : Except String (List LCDocument)) (external : Except String Unit) :
    Except String Unit :=
  if pyEndsWith (pyLower filename) ".pdf" then
    match pdfChunks with
    | .ok chunks => addDocumentsDyn (chunks.map PyChunk.doc) external
    | .error e => .error e
  else if pyEndsWith (pyLower filename) ".json" then
    match enhancedProcess cs co parsed content meta with
    | .ok chunks => addDocumentsDyn chunks external
    | .error e => .error e
  else
    match parsed with
    | some _ =>
      -- `json.loads(content.strip())` succeeded: treat as JSON content
      match enhancedProcess cs co parsed content meta with
      | .ok chunks => addDocumentsDyn chunks external
      | .error e => .error e
    | none =>
      -- not JSON: `TextProcessor.process` splits the raw content
      addDocumentsDyn
        ((splitText cs co sepsText content).map fun c => PyChunk.doc ⟨c, meta⟩)
        external

/-- `IngestionPipeline.process_file_from_path`.  The missing-document early
return happens *before* the `try/finally` that deletes the temporary file; on
every other path the `finally` removes the file and the status is driven to
`completed` or `failed`. -/
def processFileFromPath (st : PipeState) (filename : String) (parsed : Option JValue)
    (content : String) (meta : List (String × String))
    (pdfChunks : Except String (List LCDocument)) (external : Except String Unit) :
    PipeState :=
  match st.doc with
  | none => st    -- `if not document: return` — the temp file is left behind
  | some r =>
    let r := { r with processed := "processing" }
    let work := routeWork chunkSizeSetting chunkOverlapSetting filename parsed
      content meta pdfChunks external
    -- `finally: os.unlink(file_path)` runs before the outer `except` is judged
    match work with
    | .ok _ => { doc := some { r with processed := "completed" }, tempFileExists := false }
    | .error e =>
      { doc := some { processed := "failed", error_message := some e },
        tempFileExists := false }

/-- `IngestionPipeline.process_file`: persist the upload to a fresh temporary
file, then defer to `process_file_from_path`. -/
def processFile (docRow : Option DocRecord) (filename : String)
    (parsed : Option JValue) (content : String) (meta : List (String × String))
    (pdfChunks : Except String (List LCDocument)) (external : Except String Unit) :
    PipeState :=
  processFileFromPath { doc := docRow, tempFileExists := true } filename parsed
    content meta pdfChunks external

/-! ## Concrete instances used by the claim theorems below -/

/-- Two `add_documents` batches owned by users 1 and 2. -/
def c1Batches : List (List LCDocument × List String × String × Int) :=
  [([{ page_content := "hello", metadata := [] }], ["id1"], "s1", 1),
   ([{ page_content := "world", metadata := [] }], ["id2"], "s2", 2)]

/-- A 1200-character scalar value: long enough that the rendered chunk
exceeds `chunk_size` (and overlap) yet stays below `chunk_size * 2`, so the
post-pass leaves it whole. -/
def longDescr : String := ⟨List.replicate 1200 'a'⟩

def c2Data : List (String × JValue) := [("description", .jstr longDescr)]

def c2SmallData : List (String × JValue) := [("name", .jstr "Acme")]

/-- The one chunk `process` emits for `c2SmallData`: the overview. -/
def c2SmallChunk : LCDocument :=
  { page_content := "Complete Overview:\n\nName: Acme.",
    metadata := [("content_type", "json"), ("processor", "enhanced_json"),
                 ("chunk_type", "overview")] }

/-- A page whose two anchors are fragment variants of the same URL. -/
def webDup : Web :=
  [("http://c4.com/a",
    { title := "A", texts := ["hello"],
      links := ["http://c4.com/b#x", "http://c4.com/b#y"] })]

/-- A page that fetches fine but has no text in any extracted element. -/
def webEmptyText : Web := [("http://c5.com/", { title := "T", texts := [], links := [] })]

/-- A page with text, for the C5 witness. -/
def webSeedOk : Web := [("http://c5w.com/", { title := "T", texts := ["hi"], links := [] })]

/-- A pipeline state with an existing pending document row and a live temp
file. -/
def pendingState : PipeState :=
  { doc := some { processed := "pending", error_message := none }, tempFileExists := true }

/-- The state `process_file_from_path` reaches on a malformed `.json` upload:
the decode-error fallback hands bare strings to `add_documents`, which raises
on `doc.page_content`, so the document is failed (file unlinked by the
`finally`). -/
def c3FailedRecord : DocRecord :=
  { processed := "failed",
    error_message := some "AttributeError: 'str' object has no attribute 'page_content'" }

def c3Expected : PipeState := { doc := some c3FailedRecord, tempFileExists := false }

def c10Doc : DocHit := { id := "d1", text := "t1", score := 0, metadata := [] }

def c10Docs : List DocHit :=
  [{ id := "d1", text := "t1", score := 0, metadata := [] },
   { id := "d2", text := "t2", score := 0, metadata := [] },
   { id := "d3", text := "t3", score := 0, metadata := [] }]

/-! # Claims

Each claim of the specification gets one theorem (with a witness when the
theorem carries hypotheses), and — where the claim fails on the code — a
closed counterexample plus the amended statement proved instead. -/

/-! ## C8 — boolean rendering -/

/-- C8.  The claim states that the structural converter renders `true` as
`"yes"` and `false` as `"no"`.  The code contradicts its own (dead) `yes/no`
branch: `isinstance(value, (int, float))` is checked before
`isinstance(value, bool)` and Python's `bool` is a subclass of `int`, so
booleans render through `str(value)` as `"True"`/`"False"`.  This theorem
evaluates the embedded converter at the failing inputs. -/
theorem c8_boolean_rendering_eval :
    convertValueToText (JValue.jbool true) "" = "True" ∧
    convertValueToText (JValue.jbool false) "" = "False" ∧
    convertValueToText (JValue.jbool true) "" ≠ "yes" := by decide

/-! ## C6 — pipeline degradation when the search stage throws -/

/-- C6.  If the vector-store search raises, `process_query` still returns: the
Retrieve stage records the error and substitutes the empty retrieved set, the
remaining stages degrade to the fixed no-information response, the sources
list is empty, and the recorded error is surfaced — for every query, user,
prompt, reranker state and generator outcome. -/
theorem c6_search_failure_contained (e : String) (modelAvailable enabled : Bool)
    (scores : Except String (List Int)) (gen : Except String String)
    (query : String) (userId : Option Int) (systemPrompt : Option String) :
    (processQueryState (Except.error e) modelAvailable enabled scores gen query
        userId systemPrompt).retrieved_docs = [] ∧
    (processQuery (Except.error e) modelAvailable enabled scores gen query
        userId systemPrompt).response = noRelevantInfoMsg ∧
    (processQuery (Except.error e) modelAvailable enabled scores gen query
        userId systemPrompt).sources = [] ∧
    (processQuery (Except.error e) modelAvailable enabled scores gen query
        userId systemPrompt).error = some e :=
  ⟨rfl, rfl, rfl, rfl⟩

/-! ## C9 — empty retrieval short-circuits the generator -/

/-- C9.  When the search succeeds with zero hits (a user with no indexed
vectors), `process_query` returns the fixed "no relevant information"
response, an empty sources list and no error, and the generator is never
invoked — for every reranker state, generator outcome, user and prompt. -/
theorem c9_empty_retrieval_short_circuit (modelAvailable enabled : Bool)
    (scores : Except String (List Int)) (gen : Except String String)
    (userId : Option Int) (systemPrompt : Option String) :
    (processQuery (Except.ok []) modelAvailable enabled scores gen "hi" userId
        systemPrompt).response = noRelevantInfoMsg ∧
    (processQuery (Except.ok []) modelAvailable enabled scores gen "hi" userId
        systemPrompt).sources = [] ∧
    (processQuery (Except.ok []) modelAvailable enabled scores gen "hi" userId
        systemPrompt).error = none ∧
    (processQueryState (Except.ok []) modelAvailable enabled scores gen "hi" userId
        systemPrompt).generatorCalled = false :=
  ⟨rfl, rfl, rfl, rfl⟩

/-! ## C10 — rerank fallback -/

/-- C10 as stated is false: `Reranker.rerank` guards the disabled/unavailable
early return with `documents[:top_k] if top_k else documents`, so for `K = 0`
(falsy) it returns the *whole* input instead of the first 0 elements. -/
theorem c10_rerank_fallback_counterexample :
    ¬ ∀ (k : Nat) (docs : List DocHit),
        rerank false true (Except.ok []) (some (k : Int)) docs = docs.take k := by
  intro h
  exact absurd (h 0 [c10Doc]) (by decide)

/-- C10 amended: for every *positive* K, the rerank operation returns the
first K input documents in the original retrieval order — whether the
reranker is disabled, its model is unavailable, or its scorer raises — and no
error propagates (the function is total).  (When K is `None` or `0`, the
disabled path returns the whole list and the scorer-failure path falls back
to the configured default top-k, because `top_k = top_k or
settings.reranker_top_k` re-binds it before scoring.) -/
theorem c10_rerank_fallback_amended (docs : List DocHit)
    (scores : Except String (List Int)) (n : Int) (hn : 0 < n) :
    (∀ modelAvailable enabled : Bool, ¬(modelAvailable = true ∧ enabled = true) →
        rerank modelAvailable enabled scores (some n) docs = docs.take n.toNat) ∧
    (∀ e, scores = Except.error e →
        rerank true true scores (some n) docs = docs.take n.toNat) := by
  have hne : n ≠ 0 := by omega
  have hslice : pyTruthySlice (some n) docs = docs.take n.toNat := by
    simp only [pyTruthySlice, pySliceTo, if_neg hne, if_pos (le_of_lt hn)]
  constructor
  · intro mA en hnot
    have : (!mA || !en) = true := by
      cases mA <;> cases en <;> simp_all
    simp only [rerank, this, if_pos rfl, hslice]
    simp
  · intro e he
    subst he
    simp only [rerank, hslice]
    cases hn' : decide (n = 0) <;> simp_all [pyTruthySlice, pySliceTo, hne, le_of_lt hn]

/-- Witness for the amended C10 at concrete inputs: K = 2, three documents,
each failure mode. -/
theorem c10_rerank_fallback_witness :
    rerank false true (Except.ok []) (some 2) c10Docs = c10Docs.take (2 : Int).toNat ∧
    rerank true true (Except.error "scorer crashed") (some 2) c10Docs =
      c10Docs.take (2 : Int).toNat :=
  ⟨(c10_rerank_fallback_amended c10Docs (Except.ok []) 2 (by decide)).1 false true
      (by simp),
   (c10_rerank_fallback_amended c10Docs (Except.error "scorer crashed") 2 (by decide)).2
      "scorer crashed" rfl⟩

/-! ## C7 — terminal status and temp-file cleanup -/

/-- C7 as stated is false: `process_file_from_path` returns early when the
document row is missing (`if not document: return`), *before* entering the
`try/finally` that unlinks the temporary file, so on that exit path the
uploaded temp file survives. -/
theorem c7_cleanup_counterexample :
    ¬ ∀ (st : PipeState) (filename : String) (parsed : Option JValue)
        (content : String) (meta : List (String × String))
        (pdfChunks : Except String (List LCDocument)) (external : Except String Unit),
        (processFileFromPath st filename parsed content meta pdfChunks
            external).tempFileExists = false := by
  intro h
  exact absurd
    (h { doc := none, tempFileExists := true } "a.txt" none "x" [] (Except.ok [])
      (Except.ok ())) (by decide)

/-- C7 amended: whenever the document row exists, the coordinator leaves the
document in exactly `completed` or `failed` (never `processing`) and the
temporary file is deleted — on the success path and on every failure path.
Only the missing-row early return skips the cleanup (and then no document
exists to carry a status). -/
theorem c7_terminal_status_amended (st : PipeState) (filename : String)
    (parsed : Option JValue) (content : String) (meta : List (String × String))
    (pdfChunks : Except String (List LCDocument)) (external : Except String Unit)
    (r : DocRecord) (hdoc : st.doc = some r) :
    (processFileFromPath st filename parsed content meta pdfChunks
        external).tempFileExists = false ∧
    ((processFileFromPath st filename parsed content meta pdfChunks
        external).doc.map (fun d => d.processed) = some "completed" ∨
     (processFileFromPath st filename parsed content meta pdfChunks
        external).doc.map (fun d => d.processed) = some "failed") := by
  simp only [processFileFromPath, hdoc]
  cases routeWork chunkSizeSetting chunkOverlapSetting filename parsed content meta
      pdfChunks external with
  | ok _ => exact ⟨rfl, Or.inl rfl⟩
  | error e => exact ⟨rfl, Or.inr rfl⟩

/-- Witness for the amended C7 at a concrete upload. -/
theorem c7_terminal_status_witness :
    (processFileFromPath pendingState "notes.txt" none "hello world" [] (Except.ok [])
        (Except.ok ())).tempFileExists = false ∧
    ((processFileFromPath pendingState "notes.txt" none "hello world" [] (Except.ok [])
        (Except.ok ())).doc.map (fun d => d.processed) = some "completed" ∨
     (processFileFromPath pendingState "notes.txt" none "hello world" [] (Except.ok [])
        (Except.ok ())).doc.map (fun d => d.processed) = some "failed") :=
  c7_terminal_status_amended pendingState "notes.txt" none "hello world" [] (Except.ok [])
    (Except.ok ()) { processed := "pending", error_message := none } rfl

/-! ## C3 — decode-error fallback -/

/-- C3.  The claim (and the spec's intent, matched by the source's own
`"Fallback: treat as regular text"` comment and `-> List[LangchainDocument]`
annotation) is that a document whose content fails JSON parsing is chunked as
plain text, indexed, and completed.  The code slips: the fallback returns the
*bare strings* of `split_text`, and `add_documents` immediately evaluates
`doc.page_content` on them, raising `AttributeError`; the coordinator
therefore marks the document `failed`.  This theorem evaluates the embedded
pipeline at the failing input — a `.json` upload containing malformed JSON. -/
theorem c3_decode_fallback_eval :
    processFileFromPath pendingState "data.json" none "\x7bnot valid json" []
        (Except.ok []) (Except.ok ()) = c3Expected := by decide

/-! ## C1 — user isolation in vector search -/

/-- C1 as stated is false: it quantifies over *every* user identifier
including `A = 0`, but `VectorStore.search` builds its filter under
`if user_id:` — Python truthiness — so a search for user `0` applies no
filter at all and returns other users' points. -/
theorem c1_user_isolation_counterexample :
    ¬ ∀ (a : Int), ∀ h ∈ vsSearch (mkStore c1Batches) (some a) 20, h.user_id = a := by
  intro h
  exact absurd
    (h 0 { id := "id1", text := "hello", user_id := 1, session_id := "s1" } (by decide))
    (by decide)

/-- C1 amended: for every mixture of upserted batches across sessions and
users and every *non-zero* user identifier `A`, a search filtered to `A`
returns only points whose payload `user_id` equals `A`.  (For `A = 0` — an
identifier no created account carries — and for `A = None`, the truthiness
guard disables the filter.) -/
theorem c1_user_isolation_amended
    (batches : List (List LCDocument × List String × String × Int))
    (a : Int) (ha : a ≠ 0) (limit : Nat) :
    ∀ h ∈ vsSearch (mkStore batches) (some a) limit, h.user_id = a := by
  intro h hm
  simp only [vsSearch, filterConditions, if_neg ha, qdrantSearch, List.mem_map] at hm
  obtain ⟨p, hp, rfl⟩ := hm
  have hp' := List.mem_of_mem_take hp
  have := List.of_mem_filter hp'
  simpa using this

/-- Witness for the amended C1: the two-user store searched for user 1. -/
theorem c1_user_isolation_witness :
    (1 : Int) ≠ 0 ∧ ∀ h ∈ vsSearch (mkStore c1Batches) (some 1) 20, h.user_id = 1 :=
  ⟨by decide, c1_user_isolation_amended c1Batches 1 (by decide) 20⟩

/-! ## Crawler lemmas (for C4 and C5) -/

/-- A drained frontier is a fixed point of the crawl loop. -/
theorem scrapeRunT_nil_fix (web : Web) (md ml : Nat) :
    ∀ (fuel : Nat) (st : ScrapeState), st.toVisit = [] →
      (scrapeRunT web md ml fuel st).2 = st := by
  intro fuel st h
  cases fuel with
  | zero => rfl
  | succ f => simp only [scrapeRunT, h]

/-- The crawl only ever appends to `content`. -/
theorem scrapeRunT_content_mono (web : Web) (md ml : Nat) :
    ∀ (fuel : Nat) (st : ScrapeState),
      ∃ t, (scrapeRunT web md ml fuel st).2.content = st.content ++ t := by
  intro fuel
  induction fuel with
  | zero => intro st; exact ⟨[], by simp [scrapeRunT]⟩
  | succ f ih =>
    intro st
    rcases hv : st.toVisit with _ | ⟨⟨url, d⟩, rest⟩
    · exact ⟨[], by simp [scrapeRunT, hv]⟩
    · simp only [scrapeRunT, hv]
      by_cases hg : url ∈ st.visited ∨ md < d
      · simpa [hg] using ih { st with toVisit := rest }
      · rcases hw : lookupWeb web url with _ | p
        · simpa [hg, hw] using ih { st with toVisit := rest }
        · simp only [hg, hw, if_neg]
          by_cases ht : pyStrip (extractCombined p) ≠ ""
          · obtain ⟨t, h⟩ := ih
              { toVisit := rest ++ (if d < md then
                  (((getLinks p url).take ml).filter
                    (fun l => l ∉ url :: st.visited)).map (fun l => (l, d + 1))
                  else []),
                visited := url :: st.visited,
                content := st.content ++
                  [{ url := url, title := pyStrip p.title,
                     text := pyStrip (extractCombined p), depth := d }] }
            refine ⟨[{ url := url, title := pyStrip p.title,
                       text := pyStrip (extractCombined p), depth := d }] ++ t, ?_⟩
            simpa [ht] using h
          · obtain ⟨t, h⟩ := ih
              { toVisit := rest ++ (if d < md then
                  (((getLinks p url).take ml).filter
                    (fun l => l ∉ url :: st.visited)).map (fun l => (l, d + 1))
                  else []),
                visited := url :: st.visited,
                content := st.content }
            refine ⟨t, ?_⟩
            simpa [ht] using h

/-- Anything already in `content` is still in the final `content`. -/
theorem scrapeRunT_content_mem (web : Web) (md ml fuel : Nat) (st : ScrapeState)
    (r : CrawlRec) (hr : r ∈ st.content) :
    r ∈ (scrapeRunT web md ml fuel st).2.content := by
  obtain ⟨t, h⟩ := scrapeRunT_content_mono web md ml fuel st
  rw [h]
  exact List.mem_append_left _ hr

/-- Crawl invariant: the visited set stays duplicate-free (a URL is fetched at
most once), the emitted records stay duplicate-free by URL, and every emitted
record's URL has been visited. -/
theorem scrapeRunT_nodup_inv (web : Web) (md ml : Nat) :
    ∀ (fuel : Nat) (st : ScrapeState), st.visited.Nodup →
      (st.content.map (fun r => r.url)).Nodup →
      (∀ r ∈ st.content, r.url ∈ st.visited) →
      (scrapeRunT web md ml fuel st).2.visited.Nodup ∧
      ((scrapeRunT web md ml fuel st).2.content.map (fun r => r.url)).Nodup := by
  intro fuel
  induction fuel with
  | zero => intro st h1 h2 _; exact ⟨h1, h2⟩
  | succ f ih =>
    intro st h1 h2 h3
    rcases hv : st.toVisit with _ | ⟨⟨url, d⟩, rest⟩
    · simpa [scrapeRunT, hv] using ⟨h1, h2⟩
    · simp only [scrapeRunT, hv]
      by_cases hg : url ∈ st.visited ∨ md < d
      · simpa [hg] using ih { st with toVisit := rest } h1 h2 h3
      · rcases hw : lookupWeb web url with _ | p
        · simpa [hg, hw] using ih { st with toVisit := rest } h1 h2 h3
        · have hurl : url ∉ st.visited := fun hc => hg (Or.inl hc)
          have hvis : (url :: st.visited).Nodup := by
            simp [List.nodup_cons, hurl, h1]
          by_cases ht : pyStrip (extractCombined p) ≠ ""
          · have hcontent :
                ((st.content ++
                  [({ url := url, title := pyStrip p.title,
                      text := pyStrip (extractCombined p), depth := d } : CrawlRec)]).map
                    (fun r => r.url)).Nodup := by
              have hnotin : url ∉ st.content.map (fun r => r.url) := by
                intro hc
                obtain ⟨r, hr, hru⟩ := List.mem_map.mp hc
                exact hurl (hru ▸ h3 r hr)
              simp [List.nodup_append, h2, hnotin]
            have hsub : ∀ r ∈ st.content ++
                [({ url := url, title := pyStrip p.title,
                    text := pyStrip (extractCombined p), depth := d } : CrawlRec)],
                r.url ∈ url :: st.visited := by
              intro r hr
              rcases List.mem_append.mp hr with hr | hr
              · exact List.mem_cons_of_mem _ (h3 r hr)
              · simp at hr
                simp [hr]
            have := ih
              { toVisit := rest ++ (if d < md then
                  (((getLinks p url).take ml).filter
                    (fun l => l ∉ url :: st.visited)).map (fun l => (l, d + 1))
                  else []),
                visited := url :: st.visited,
                content := st.content ++
                  [{ url := url, title := pyStrip p.title,
                     text := pyStrip (extractCombined p), depth := d }] }
              hvis hcontent hsub
            simpa [hg, hw, ht] using this
          · have hsub : ∀ r ∈ st.content, r.url ∈ url :: st.visited := fun r hr =>
              List.mem_cons_of_mem _ (h3 r hr)
            have := ih
              { toVisit := rest ++ (if d < md then
                  (((getLinks p url).take ml).filter
                    (fun l => l ∉ url :: st.visited)).map (fun l => (l, d + 1))
                  else []),
                visited := url :: st.visited,
                content := st.content }
              hvis h2 hsub
            simpa [hg, hw, ht] using this

/-- Crawl invariant: every emitted record's depth respects the depth budget
(the fetch guard skips any frontier entry with `current_depth > max_depth`,
and records are only emitted for fetched entries). -/
theorem scrapeRunT_depth_inv (web : Web) (md ml : Nat) :
    ∀ (fuel : Nat) (st : ScrapeState), (∀ r ∈ st.content, r.depth ≤ md) →
      ∀ r ∈ (scrapeRunT web md ml fuel st).2.content, r.depth ≤ md := by
  intro fuel
  induction fuel with
  | zero => intro st h; exact h
  | succ f ih =>
    intro st h
    rcases hv : st.toVisit with _ | ⟨⟨url, d⟩, rest⟩
    · simpa [scrapeRunT, hv] using h
    · simp only [scrapeRunT, hv]
      by_cases hg : url ∈ st.visited ∨ md < d
      · simpa [hg] using ih { st with toVisit := rest } h
      · rcases hw : lookupWeb web url with _ | p
        · simpa [hg, hw] using ih { st with toVisit := rest } h
        · have hd : d ≤ md := le_of_not_lt (fun hc => hg (Or.inr hc))
          by_cases ht : pyStrip (extractCombined p) ≠ ""
          · have h' : ∀ r ∈ st.content ++
                [({ url := url, title := pyStrip p.title,
                    text := pyStrip (extractCombined p), depth := d } : CrawlRec)],
                r.depth ≤ md := by
              intro r hr
              rcases List.mem_append.mp hr with hr | hr
              · exact h r hr
              · simp at hr
                simp [hr, hd]
            have := ih
              { toVisit := rest ++ (if d < md then
                  (((getLinks p url).take ml).filter
                    (fun l => l ∉ url :: st.visited)).map (fun l => (l, d + 1))
                  else []),
                visited := url :: st.visited,
                content := st.content ++
                  [{ url := url, title := pyStrip p.title,
                     text := pyStrip (extractCombined p), depth := d }] } h'
            simpa [hg, hw, ht] using this
          · have := ih
              { toVisit := rest ++ (if d < md then
                  (((getLinks p url).take ml).filter
                    (fun l => l ∉ url :: st.visited)).map (fun l => (l, d + 1))
                  else []),
                visited := url :: st.visited,
                content := st.content } h
            simpa [hg, hw, ht] using this

/-! ## C4 — frontier/visited dedup -/

/-- C4 as stated is false: the enqueue check in `URLScraper.scrape` is only
`if link not in self.visited_urls` — the frontier itself is never consulted —
so two links to the same (fragment-stripped) URL on one page put two entries
for it into the frontier.  Witnessed by a page whose anchors are the fragment
variants `b#x` and `b#y` of one URL. -/
theorem c4_frontier_dedup_counterexample :
    ¬ ∀ st ∈ scrapeTrace webDup "http://c4.com/a" 2 20,
        (st.toVisit.map Prod.fst).Nodup := by decide

/-- C4 amended: an already-visited URL is never enqueued and the pop-time
visited check ensures a URL is fetched at most once — across every crawl the
visited set and the emitted record URLs are duplicate-free — but the frontier
may temporarily hold duplicate entries for a URL that has not been fetched
yet. -/
theorem c4_no_duplicate_fetch_amended (web : Web) (seed : String) (md ml : Nat) :
    (scrape web seed md ml).visited.Nodup ∧
    ((scrape web seed md ml).content.map (fun r => r.url)).Nodup :=
  scrapeRunT_nodup_inv web md ml _ (initState seed) (by simp [initState])
    (by simp [initState]) (by simp [initState])

/-! ## C5 — depth bound and seed record -/

/-- C5 as stated is false in its second half: when the seed page fetches
successfully but its extracted text is empty, `_extract_text` skips emission,
so no record — in particular none of depth 1 — is returned even though the
seed fetch succeeded (it is in the visited set). -/
theorem c5_depth_counterexample :
    "http://c5.com/" ∈ (scrape webEmptyText "http://c5.com/" 1 20).visited ∧
    ¬ ∃ r ∈ (scrape webEmptyText "http://c5.com/" 1 20).content, r.depth = 1 := by decide

/-- With a zero depth budget the seed entry is skipped and nothing is ever
visited. -/
theorem scrape_zero_visited (web : Web) (seed : String) (ml : Nat) :
    (scrape web seed 0 ml).visited = [] := by
  unfold scrape
  simp only [scrapeBudget, initState, List.length_cons, List.length_nil]
  simp only [scrapeRunT]
  rw [if_pos (Or.inr (by omega) : seed ∈ ([] : List String) ∨ 0 < 1)]
  rw [scrapeRunT_nil_fix web 0 ml _ _ rfl]

/-- C5 amended: every returned record's depth is at most `max_depth`, and
whenever the seed fetch succeeds *and its extracted text is non-empty after
stripping*, some returned record is the seed at depth 1. -/
theorem c5_depth_amended (web : Web) (seed : String) (md ml : Nat) (p : PageData)
    (hp : lookupWeb web seed = some p)
    (htext : pyStrip (extractCombined p) ≠ "")
    (hfetched : seed ∈ (scrape web seed md ml).visited) :
    (∀ r ∈ (scrape web seed md ml).content, r.depth ≤ md) ∧
    ∃ r ∈ (scrape web seed md ml).content, r.url = seed ∧ r.depth = 1 := by
  refine ⟨scrapeRunT_depth_inv web md ml _ (initState seed) (by simp [initState]), ?_⟩
  have hB : scrapeBudget web (initState seed) ml = (web.length * (ml + 1) + 1) + 1 := by
    simp [scrapeBudget, initState]
    omega
  rcases md with _ | m
  · -- depth budget 0: contradiction with the seed having been fetched
    rw [scrape_zero_visited web seed ml] at hfetched
    simp at hfetched
  · -- depth budget ≥ 1: the first iteration fetches the seed and emits it
    obtain ⟨F, hF⟩ : ∃ F, scrapeBudget web (initState seed) ml = F + 1 := ⟨_, hB⟩
    unfold scrape
    rw [hF]
    simp only [scrapeRunT, initState]
    have hg : ¬(seed ∈ ([] : List String) ∨ m + 1 < 1) := by simp
    rw [if_neg hg, hp]
    refine ⟨(⟨seed, pyStrip p.title, pyStrip (extractCombined p), 1⟩ : CrawlRec), ?_, rfl, rfl⟩
    apply scrapeRunT_content_mem
    simp [htext]

/-- Witness for the amended C5: a one-page web whose seed has text. -/
theorem c5_depth_witness :
    (∀ r ∈ (scrape webSeedOk "http://c5w.com/" 1 20).content, r.depth ≤ 1) ∧
    ∃ r ∈ (scrape webSeedOk "http://c5w.com/" 1 20).content,
      r.url = "http://c5w.com/" ∧ r.depth = 1 :=
  c5_depth_amended webSeedOk "http://c5w.com/" 1 20
    { title := "T", texts := ["hi"], links := [] } (by decide) (by decide) (by decide)

/-! ## Splitter lemmas (for C2)

The re-split guarantee of the post-pass rests on two facts about
`RecursiveCharacterTextSplitter`: every emitted chunk is non-empty, and — for
the separator lists used here, which end in `""` — every emitted chunk's
length is at most `chunk_size` (when `chunk_size ≥ 2`). -/

theorem dropWhile_length_le {α : Type} (p : α → Bool) :
    ∀ l : List α, (l.dropWhile p).length ≤ l.length := by
  intro l
  induction l with
  | nil => simp
  | cons a t ih =>
    by_cases h : p a
    · simp only [List.dropWhile_cons, h, if_pos]
      exact le_trans ih (by simp)
    · simp [List.dropWhile_cons, h]

theorem pyStrip_length_le (s : String) : (pyStrip s).length ≤ s.length := by
  show ((s.data.dropWhile isPyWs).reverse.dropWhile isPyWs).reverse.length ≤ s.data.length
  rw [List.length_reverse]
  calc ((s.data.dropWhile isPyWs).reverse.dropWhile isPyWs).length
      ≤ (s.data.dropWhile isPyWs).reverse.length := dropWhile_length_le _ _
    _ = (s.data.dropWhile isPyWs).length := List.length_reverse _
    _ ≤ s.data.length := dropWhile_length_le _ _

/-- A string of positive length is not the empty string. -/
theorem ne_empty_of_length_pos {s : String} (h : 0 < s.length) : s ≠ "" := by
  intro hc
  subst hc
  simp at h

/-- Total length of a list of strings, as an integer (the splitter's running
`total`). -/
def sumLenI : List String → Int
  | [] => 0
  | s :: t => (s.length : Int) + sumLenI t

theorem sumLenI_nonneg : ∀ l : List String, 0 ≤ sumLenI l := by
  intro l
  induction l with
  | nil => simp [sumLenI]
  | cons s t ih => simp only [sumLenI]; positivity

theorem sumLenI_append (l₁ l₂ : List String) :
    sumLenI (l₁ ++ l₂) = sumLenI l₁ + sumLenI l₂ := by
  induction l₁ with
  | nil => simp [sumLenI]
  | cons s t ih => simp [sumLenI, ih]; ring

/-- Joining with the empty separator concatenates, so the result's length is
the sum of the parts'. -/
theorem pyJoin_empty_length : ∀ l : List String, ((pyJoin "" l).length : Int) = sumLenI l := by
  have step : ∀ (t : List String) (a : String),
      ((t.foldl (fun r x => r ++ "" ++ x) a).length : Int) = (a.length : Int) + sumLenI t := by
    intro t
    induction t with
    | nil => intro a; simp [sumLenI]
    | cons x xs ih =>
      intro a
      simp only [List.foldl_cons, sumLenI]
      rw [ih (a ++ "" ++ x)]
      simp [String.length_append]
      ring
  intro l
  cases l with
  | nil => simp [pyJoin, sumLenI]
  | cons a t => simpa [pyJoin, sumLenI] using step t a

/-- What `joinDocs` emits is non-empty and no longer than the running total of
its fragments. -/
theorem joinDocs_spec {cur : List String} {doc : String}
    (h : joinDocs cur "" = some doc) : doc ≠ "" ∧ (doc.length : Int) ≤ sumLenI cur := by
  unfold joinDocs at h
  by_cases hne : pyStrip (pyJoin "" cur) = ""
  · simp [hne] at h
  · simp only [hne, if_neg, if_false] at h
    have hdoc := Option.some.inj h
    refine ⟨hdoc ▸ hne, ?_⟩
    rw [← hdoc, ← pyJoin_empty_length cur]
    exact_mod_cast pyStrip_length_le (pyJoin "" cur)

/-- `popOverlap` (with the empty join separator) preserves the
total-equals-sum relation, and on exit either everything was popped or the
next fragment fits. -/
theorem popOverlap_spec (cs co dLen : Int) :
    ∀ (cur : List String) (total : Int), total = sumLenI cur →
      (popOverlap cs co 0 dLen cur total).2 = sumLenI (popOverlap cs co 0 dLen cur total).1 ∧
      ((popOverlap cs co 0 dLen cur total).2 + dLen ≤ cs ∨
       (popOverlap cs co 0 dLen cur total).2 = 0) := by
  intro cur
  induction cur with
  | nil =>
    intro total htot
    simp only [popOverlap]
    simp [sumLenI] at htot
    exact ⟨htot ▸ rfl, Or.inr htot⟩
  | cons c rest ih =>
    intro total htot
    by_cases hcond : total > co ∨ (total + dLen + 0 > cs ∧ total > 0)
    · have hrec : total - ((c.length : Int) + if rest.isEmpty then 0 else 0) = sumLenI rest := by
        simp only [sumLenI] at htot
        rcases rest with _ | _ <;> simp_all
      simp only [popOverlap, if_pos hcond]
      exact ih _ hrec
    · simp only [popOverlap, if_neg hcond]
      push_neg at hcond
      obtain ⟨h1, h2⟩ := hcond
      refine ⟨htot, ?_⟩
      have hnn : 0 ≤ total := htot ▸ sumLenI_nonneg (c :: rest)
      omega

/-- The `_merge_splits` loop invariant: emitted docs are non-empty and within
the size budget, and the running total is the summed length of the pending
fragments and itself within budget. -/
def MergeInv (cs : Int) (st : List String × List String × Int) : Prop :=
  (∀ doc ∈ st.1, doc ≠ "" ∧ (doc.length : Int) ≤ cs) ∧
  st.2.2 = sumLenI st.2.1 ∧ st.2.2 ≤ cs

theorem mergeOne_inv (cs co : Int) (docs cur : List String) (total : Int) (d : String)
    (hd : (d.length : Int) < cs)
    (hdocs : ∀ doc ∈ docs, doc ≠ "" ∧ (doc.length : Int) ≤ cs)
    (htot : total = sumLenI cur) (hbound : total ≤ cs) :
    MergeInv cs (mergeOne cs co "" (docs, cur, total) d) := by
  rcases cur with _ | ⟨c, rest⟩
  · -- current_doc empty: the flush part is a no-op either way
    have h0 : total = 0 := by simpa [sumLenI] using htot
    subst h0
    simp only [mergeOne, List.isEmpty_nil, if_true, Bool.not_true, String.length_empty,
      Nat.cast_zero, add_zero, Bool.false_eq_true, if_false, ite_self]
    refine ⟨hdocs, by simp [sumLenI], by simp; omega⟩
  · simp only [mergeOne, List.isEmpty_cons, Bool.not_false, String.length_empty,
      Nat.cast_zero, add_zero, if_true, ite_self]
    by_cases hflush : total + (d.length : Int) > cs
    · rw [if_pos hflush]
      obtain ⟨hpop1, hpop2⟩ := popOverlap_spec cs co (d.length : Int) (c :: rest) total htot
      rcases hpr : popOverlap cs co 0 (↑d.length) (c :: rest) total with ⟨cur2, total2⟩
      rw [hpr] at hpop1 hpop2
      simp only at hpop1 hpop2
      rcases hj : joinDocs (c :: rest) "" with _ | j <;>
        simp only [hj, hpr, MergeInv] <;> refine ⟨?_, ?_, ?_⟩
      · exact hdocs
      · rw [sumLenI_append, hpop1]
        simp [sumLenI]
      · omega
      · intro doc hdoc
        rcases List.mem_append.mp hdoc with hdoc | hdoc
        · exact hdocs doc hdoc
        · obtain rfl : doc = j := by simpa using hdoc
          obtain ⟨hne, hle⟩ := joinDocs_spec hj
          exact ⟨hne, le_trans (htot ▸ hle) hbound⟩
      · rw [sumLenI_append, hpop1]
        simp [sumLenI]
      · omega
    · rw [if_neg hflush]
      simp only [MergeInv]
      refine ⟨hdocs, ?_, ?_⟩
      · rw [sumLenI_append, htot]
        simp [sumLenI]
      · omega

theorem foldl_mergeOne_inv (cs co : Int) :
    ∀ (splits : List String) (st : List String × List String × Int),
      MergeInv cs st → (∀ s ∈ splits, (s.length : Int) < cs) →
      MergeInv cs (splits.foldl (mergeOne cs co "") st) := by
  intro splits
  induction splits with
  | nil => intro st h _; exact h
  | cons s rest ih =>
    intro st hinv hs
    obtain ⟨docs, cur, total⟩ := st
    obtain ⟨h1, h2, h3⟩ := hinv
    simp only [List.foldl_cons]
    exact ih _ (mergeOne_inv cs co docs cur total s (hs s (List.mem_cons_self s rest)) h1 h2 h3)
      (fun x hx => hs x (List.mem_cons_of_mem _ hx))

/-- Outputs of `_merge_splits` (with the empty join separator, i.e.
`keep_separator=True`) are non-empty and within the chunk-size budget,
provided every incoming fragment is strictly below it. -/
theorem mergeSplits_spec (cs co : Int) (splits : List String)
    (h : ∀ s ∈ splits, (s.length : Int) < cs) :
    ∀ doc ∈ mergeSplits cs co splits "", doc ≠ "" ∧ (doc.length : Int) ≤ cs := by
  rcases hsp : splits with _ | ⟨s0, rest⟩
  · intro doc hdoc
    simp [mergeSplits, joinDocs, pyJoin, pyStrip] at hdoc
  · have hcs : 0 < cs := lt_of_le_of_lt (Int.ofNat_nonneg s0.length)
      (h s0 (hsp ▸ List.mem_cons_self s0 rest))
    have hinv := foldl_mergeOne_inv cs co (s0 :: rest) ([], [], 0)
      ⟨by simp, by simp [sumLenI], le_of_lt hcs⟩ (fun s hs => h s (hsp ▸ hs))
    intro doc hdoc
    rcases hF : (s0 :: rest).foldl (mergeOne cs co "") ([], [], 0) with ⟨docs, cur, total⟩
    rw [hF] at hinv
    obtain ⟨h1, h2, h3⟩ := hinv
    simp only at h1 h2 h3
    simp only [mergeSplits, hF] at hdoc
    rcases hj : joinDocs cur "" with _ | j
    · simp only [hj] at hdoc
      exact h1 doc hdoc
    · simp only [hj, List.mem_append, List.mem_singleton] at hdoc
      rcases hdoc with hdoc | rfl
      · exact h1 doc hdoc
      · obtain ⟨hne, hle⟩ := joinDocs_spec hj
        exact ⟨hne, le_trans (h2 ▸ hle) h3⟩

theorem goSplits_fold_spec (cs co : Int) (handleBig : String → List String) :
    ∀ (sp : List String) (final good : List String),
      (∀ c ∈ final, c ≠ "" ∧ (c.length : Int) ≤ cs) →
      (∀ g ∈ good, (g.length : Int) < cs) →
      (∀ s ∈ sp, ¬((s.length : Int) < cs) →
        ∀ c ∈ handleBig s, c ≠ "" ∧ (c.length : Int) ≤ cs) →
      (∀ c ∈ (sp.foldl (goSplitsStep cs co "" handleBig) (final, good)).1,
          c ≠ "" ∧ (c.length : Int) ≤ cs) ∧
      (∀ g ∈ (sp.foldl (goSplitsStep cs co "" handleBig) (final, good)).2,
          (g.length : Int) < cs) := by
  intro sp
  induction sp with
  | nil => intro final good hf hg _; exact ⟨hf, hg⟩
  | cons s rest ih =>
    intro final good hf hg hbig
    simp only [List.foldl_cons]
    by_cases hlen : (s.length : Int) < cs
    · rw [show goSplitsStep cs co "" handleBig (final, good) s = (final, good ++ [s]) by
        simp [goSplitsStep, hlen]]
      refine ih final (good ++ [s]) hf ?_ (fun x hx => hbig x (List.mem_cons_of_mem _ hx))
      intro g hgm
      rcases List.mem_append.mp hgm with h | h
      · exact hg g h
      · obtain rfl : g = s := by simpa using h
        exact hlen
    · rw [show goSplitsStep cs co "" handleBig (final, good) s =
          ((final ++ (if !good.isEmpty then mergeSplits cs co good "" else [])) ++
            handleBig s, []) by simp [goSplitsStep, hlen]]
      refine ih _ [] ?_ (by simp) (fun x hx => hbig x (List.mem_cons_of_mem _ hx))
      intro c hc
      rcases List.mem_append.mp hc with hc | hc
      · rcases List.mem_append.mp hc with hc | hc
        · exact hf c hc
        · rcases hgood : good.isEmpty with _ | _
          · simp only [hgood, Bool.not_false, if_true] at hc
            exact mergeSplits_spec cs co good hg c hc
          · simp only [hgood, Bool.not_true, Bool.false_eq_true, if_false] at hc
            simp at hc
      · exact hbig s (List.mem_cons_self s rest) hlen c hc

/-- Outputs of the `_split_text` loop are non-empty and within the chunk-size
budget, provided the recursive handler guarantees the same for every
oversized fragment. -/
theorem goSplits_spec (cs co : Int) (handleBig : String → List String)
    (splits : List String)
    (hbig : ∀ s ∈ splits, ¬((s.length : Int) < cs) →
      ∀ c ∈ handleBig s, c ≠ "" ∧ (c.length : Int) ≤ cs) :
    ∀ c ∈ goSplits cs co "" handleBig splits, c ≠ "" ∧ (c.length : Int) ≤ cs := by
  obtain ⟨hfin, hgood⟩ := goSplits_fold_spec cs co handleBig splits [] []
    (by simp) (by simp) hbig
  intro c hc
  rcases hF : splits.foldl (goSplitsStep cs co "" handleBig) ([], []) with ⟨final, good⟩
  rw [hF] at hfin hgood
  simp only at hfin hgood
  simp only [goSplits, hF] at hc
  rcases List.mem_append.mp hc with hc | hc
  · exact hfin c hc
  · rcases hgoodE : good.isEmpty with _ | _
    · simp only [hgoodE, Bool.not_false, if_true] at hc
      exact mergeSplits_spec cs co good hgood c hc
    · simp only [hgoodE, Bool.not_true, Bool.false_eq_true, if_false] at hc
      simp at hc

/-- When the separator list contains `""`, the separator-selection loop always
breaks: either at `""` itself (with no separators left), or at an earlier
separator that occurs in the text (with `""` still among the remaining
ones). -/
theorem chooseSepGo_cases (text : String) :
    ∀ seps : List String, "" ∈ seps →
      ∃ r, chooseSepGo text seps = some r ∧
        (r = ("", []) ∨ (r.1 ≠ "" ∧ "" ∈ r.2)) := by
  intro seps
  induction seps with
  | nil => intro h; simp at h
  | cons s rest ih =>
    intro h
    by_cases hs : s = ""
    · subst hs
      exact ⟨("", []), by simp [chooseSepGo], Or.inl rfl⟩
    · have hmem : "" ∈ rest := by
        rcases List.mem_cons.mp h with h | h
        · exact absurd h.symm hs
        · exact h
      by_cases hocc : reSearch s text
      · exact ⟨(s, rest), by simp [chooseSepGo, hs, hocc], Or.inr ⟨hs, hmem⟩⟩
      · obtain ⟨r, hr, hcase⟩ := ih hmem
        exact ⟨r, by simp [chooseSepGo, hs, hocc, hr], hcase⟩

theorem chooseSep_cases (seps : List String) (text : String) (h : "" ∈ seps) :
    chooseSep seps text = ("", []) ∨
    ((chooseSep seps text).1 ≠ "" ∧ "" ∈ (chooseSep seps text).2) := by
  obtain ⟨r, hr, hcase⟩ := chooseSepGo_cases text seps h
  simp only [chooseSep, hr]
  exact hcase

/-- Splitting on the empty separator yields single characters. -/
theorem pySplitKeepSep_empty_len (text : String) :
    ∀ s ∈ pySplitKeepSep "" text, s.length = 1 := by
  intro s hs
  simp only [pySplitKeepSep, if_pos rfl] at hs
  obtain ⟨c, _, hc⟩ := List.mem_map.mp (List.mem_of_mem_filter hs)
  rw [← hc]
  rfl

/-- The central splitter guarantee: for a separator list containing `""` and a
chunk size of at least 2, every chunk that `_split_text` emits is non-empty
and at most `chunk_size` long — at any fuel. -/
theorem splitTextFuel_spec (cs co : Int) (hcs : 2 ≤ cs) :
    ∀ (fuel : Nat) (seps : List String) (text : String), "" ∈ seps →
      ∀ c ∈ splitTextFuel cs co fuel seps text, c ≠ "" ∧ (c.length : Int) ≤ cs := by
  intro fuel
  induction fuel with
  | zero => intro seps text _ c hc; simp [splitTextFuel] at hc
  | succ f ih =>
    intro seps text hsep c hc
    simp only [splitTextFuel] at hc
    rcases chooseSep_cases seps text hsep with hch | ⟨hne, hrest⟩
    · rw [hch] at hc
      refine goSplits_spec cs co _ _ ?_ c hc
      intro s hs hlen
      have := pySplitKeepSep_empty_len text s hs
      exact absurd (by omega : (s.length : Int) < cs) hlen
    · rcases hch : chooseSep seps text with ⟨sep, newSeps⟩
      rw [hch] at hc hne hrest
      simp only at hne hrest
      refine goSplits_spec cs co _ _ ?_ c hc
      intro s _ _ c' hc'
      have hnonempty : newSeps.isEmpty = false := by
        rcases newSeps with _ | _
        · simp at hrest
        · simp
      rw [if_neg (by simp [hnonempty])] at hc'
      exact ih newSeps s hrest c' hc'

/-- `split_text` with the repository's JSON separator configuration keeps
every chunk non-empty and within `chunk_size` (for `chunk_size ≥ 2`). -/
theorem splitText_spec (cs co : Int) (hcs : 2 ≤ cs) (text : String) :
    ∀ c ∈ splitText cs co sepsJSON text, c ≠ "" ∧ (c.length : Int) ≤ cs :=
  splitTextFuel_spec cs co hcs sepsJSON.length sepsJSON text (by decide)

/-- Likewise for `split_documents` on the JSON configuration. -/
theorem splitDocuments_spec (cs co : Int) (hcs : 2 ≤ cs) (docs : List LCDocument) :
    ∀ d ∈ splitDocuments cs co sepsJSON docs,
      d.page_content ≠ "" ∧ (d.page_content.length : Int) ≤ cs := by
  intro d hd
  simp only [splitDocuments, List.mem_flatMap, List.mem_map] at hd
  obtain ⟨src, _, c, hc, rfl⟩ := hd
  exact splitText_spec cs co hcs src.page_content c hc

/-! ## Structured-chunk lemmas (for C2) -/

theorem length_pos_of_ne_empty {s : String} (h : s ≠ "") : 0 < s.length := by
  rcases s with ⟨l⟩
  cases l with
  | nil => exact absurd rfl h
  | cons c t => simp [String.length]

/-- Every chunk `process_object` emits for the current object is non-empty:
the guard demands more than 50 characters after stripping, and the optional
context header only lengthens the text. -/
theorem headChunk_pos (meta : List (String × String)) (obj : List (String × JValue))
    (path parentCtx : String) :
    ∀ c ∈ headChunk meta obj path parentCtx, 0 < c.page_content.length := by
  intro c hc
  unfold headChunk at hc
  by_cases hg : dictToText obj path 0 ≠ "" ∧ 50 < (pyStrip (dictToText obj path 0)).length
  · rw [if_pos hg] at hc
    obtain rfl : c = _ := by simpa using hc
    have hobj : 0 < (dictToText obj path 0).length := length_pos_of_ne_empty hg.1
    by_cases hctx : parentCtx = ""
    · simpa [hctx] using hobj
    · have hlong : 0 < ("Context: " ++ parentCtx ++ "\n\n" ++ dictToText obj path 0).length := by
        simp only [String.length_append]
        omega
      simpa [hctx] using hlong
  · rw [if_neg hg] at hc
    simp at hc

/-- Every chunk emitted by the recursive walk of `_create_structured_chunks`
is non-empty (strong induction on the size of the traversed object). -/
theorem structuredWalk_pos :
    ∀ n : Nat,
      (∀ (obj : List (String × JValue)) (path parentCtx : String)
          (meta : List (String × String)), sizeOf obj ≤ n →
        ∀ c ∈ processKeys meta obj path parentCtx, 0 < c.page_content.length) ∧
      (∀ (items : List JValue) (currentPath sectionCtx : String) (i cap : Nat)
          (meta : List (String × String)), sizeOf items ≤ n →
        ∀ c ∈ processArrayItems meta items currentPath sectionCtx i cap,
          0 < c.page_content.length) := by
  intro n
  induction n with
  | zero =>
    constructor
    · intro obj _ _ _ hsz
      rcases obj with _ | _ <;> simp_all
    · intro items _ _ _ _ _ hsz
      rcases items with _ | _ <;> simp_all
  | succ n ih =>
    obtain ⟨ihK, ihA⟩ := ih
    constructor
    · intro obj path parentCtx meta hsz c hc
      match obj, hc with
      | (k, .jdict inner) :: t, hc =>
        have hszs : sizeOf inner ≤ n ∧ sizeOf t ≤ n := by
          simp at hsz
          omega
        simp only [processKeys, List.mem_append] at hc
        rcases hc with hc | hc
        · by_cases h1 : !inner.isEmpty
          · by_cases h2 : 200 < (jsonDumps (.jdict inner)).length
            · rw [if_pos h1, if_pos h2] at hc
              rcases List.mem_append.mp hc with hc | hc
              · exact headChunk_pos _ _ _ _ c hc
              · exact ihK inner _ _ meta hszs.1 c hc
            · rw [if_pos h1, if_neg h2] at hc
              simp at hc
          · rw [if_neg h1] at hc
            simp at hc
        · exact ihK t path parentCtx meta hszs.2 c hc
      | (k, .jlist items) :: t, hc =>
        have hszs : sizeOf items ≤ n ∧ sizeOf t ≤ n := by
          simp at hsz
          omega
        simp only [processKeys, List.mem_append] at hc
        rcases hc with hc | hc
        · by_cases h1 : !items.isEmpty
          · by_cases h2 : items.all isDict
            · rw [if_pos h1, if_pos h2] at hc
              exact ihA items _ _ 0 5 meta hszs.1 c hc
            · rw [if_pos h1, if_neg (by simpa using h2)] at hc
              simp at hc
          · rw [if_neg h1] at hc
            simp at hc
        · exact ihK t path parentCtx meta hszs.2 c hc
      | [], hc => simp [processKeys] at hc
      | (k, .jstr s) :: t, hc =>
        exact ihK t path parentCtx meta (by simp at hsz; omega) c (by simpa [processKeys] using hc)
      | (k, .jint m) :: t, hc =>
        exact ihK t path parentCtx meta (by simp at hsz; omega) c (by simpa [processKeys] using hc)
      | (k, .jbool b) :: t, hc =>
        exact ihK t path parentCtx meta (by simp at hsz; omega) c (by simpa [processKeys] using hc)
      | (k, .jnull) :: t, hc =>
        exact ihK t path parentCtx meta (by simp at hsz; omega) c (by simpa [processKeys] using hc)
    · intro items currentPath sectionCtx i cap meta hsz c hc
      match items, cap, hc with
      | [], _, hc => simp [processArrayItems] at hc
      | (.jdict inner) :: t, 0, hc => simp [processArrayItems] at hc
      | (.jdict inner) :: t, cap' + 1, hc =>
        have hszs : sizeOf inner ≤ n ∧ sizeOf t ≤ n := by
          simp at hsz
          omega
        simp only [processArrayItems, List.mem_append] at hc
        rcases hc with (hc | hc) | hc
        · exact headChunk_pos _ _ _ _ c hc
        · exact ihK inner _ _ meta hszs.1 c hc
        · exact ihA t currentPath sectionCtx (i + 1) cap' meta hszs.2 c hc
      | (.jstr s) :: t, cap, hc =>
        rcases cap with _ | cap'
        · simp [processArrayItems] at hc
        · exact ihA t currentPath sectionCtx (i + 1) cap' meta (by simp at hsz; omega) c
            (by simpa [processArrayItems] using hc)
      | (.jint m) :: t, cap, hc =>
        rcases cap with _ | cap'
        · simp [processArrayItems] at hc
        · exact ihA t currentPath sectionCtx (i + 1) cap' meta (by simp at hsz; omega) c
            (by simpa [processArrayItems] using hc)
      | (.jbool b) :: t, cap, hc =>
        rcases cap with _ | cap'
        · simp [processArrayItems] at hc
        · exact ihA t currentPath sectionCtx (i + 1) cap' meta (by simp at hsz; omega) c
            (by simpa [processArrayItems] using hc)
      | .jnull :: t, cap, hc =>
        rcases cap with _ | cap'
        · simp [processArrayItems] at hc
        · exact ihA t currentPath sectionCtx (i + 1) cap' meta (by simp at hsz; omega) c
            (by simpa [processArrayItems] using hc)
      | (.jlist xs) :: t, cap, hc =>
        rcases cap with _ | cap'
        · simp [processArrayItems] at hc
        · exact ihA t currentPath sectionCtx (i + 1) cap' meta (by simp at hsz; omega) c
            (by simpa [processArrayItems] using hc)

theorem createStructuredChunks_pos (meta : List (String × String))
    (data : List (String × JValue)) :
    ∀ c ∈ createStructuredChunks meta data, 0 < c.page_content.length := by
  intro c hc
  rcases List.mem_append.mp hc with hc | hc
  · exact headChunk_pos _ _ _ _ c hc
  · exact (structuredWalk_pos (sizeOf data)).1 data "" "Root" meta le_rfl c hc

/-- The guaranteed bound of `EnhancedJSONProcessor.process`: every chunk the
structured path emits is non-empty and at most *twice* the configured chunk
size — chunks within `chunk_size * 2` pass the post-pass untouched, larger
ones are re-split into pieces that the splitter keeps within `chunk_size`. -/
theorem enhancedProcessChunks_bound (cs co : Int) (hcs : 2 ≤ cs)
    (data : List (String × JValue)) (meta : List (String × String)) :
    ∀ c ∈ enhancedProcessChunks cs co data meta,
      c.page_content ≠ "" ∧ (c.page_content.length : Int) ≤ cs * 2 := by
  intro c hc
  simp only [enhancedProcessChunks, List.mem_flatMap] at hc
  obtain ⟨chunk, hmem, hc⟩ := hc
  have hpos : 0 < chunk.page_content.length := by
    by_cases hov : createOverview data ≠ ""
    · rw [if_pos hov] at hmem
      rcases List.mem_cons.mp hmem with rfl | hmem
      · have h20 : 0 < "Complete Overview:\n\n".length := by decide
        simp only [String.length_append]
        omega
      · exact createStructuredChunks_pos _ data chunk hmem
    · rw [if_neg hov] at hmem
      exact createStructuredChunks_pos _ data chunk hmem
  by_cases hbig : (chunk.page_content.length : Int) > cs * 2
  · rw [if_pos hbig] at hc
    obtain ⟨hne, hle⟩ := splitDocuments_spec cs co hcs [chunk] c hc
    exact ⟨hne, by omega⟩
  · rw [if_neg hbig] at hc
    obtain rfl : c = chunk := by simpa using hc
    exact ⟨ne_empty_of_length_pos hpos, by omega⟩

/-! ## C2 — chunk-size bound of the structural converter -/

set_option maxRecDepth 40000 in
/-- C2 as stated is false: the post-pass only re-splits chunks whose length
exceeds `chunk_size * 2`, so a rendered chunk of, say, ~1230 characters
(produced here by a 1200-character scalar value) is emitted untouched, above
both `chunk_size` (1000) and `chunk_size + chunk_overlap` (1200). -/
theorem c2_chunk_bound_counterexample :
    ¬ ∀ c ∈ enhancedProcessChunks chunkSizeSetting chunkOverlapSetting c2Data [],
        (c.page_content.length : Int) ≤ chunkSizeSetting + chunkOverlapSetting := by decide

/-- C2 amended: every chunk emitted by the structural converter's `process`
is non-empty and of length at most **twice** the configured maximum chunk
size; only chunks exceeding twice the chunk size are re-split by the
plain-text splitter (into pieces within the chunk size), while chunks
between `chunk_size` and `chunk_size * 2` are emitted as-is. -/
theorem c2_chunk_bound_amended (data : List (String × JValue))
    (meta : List (String × String)) :
    ∀ c ∈ enhancedProcessChunks chunkSizeSetting chunkOverlapSetting data meta,
      c.page_content ≠ "" ∧ (c.page_content.length : Int) ≤ chunkSizeSetting * 2 :=
  enhancedProcessChunks_bound chunkSizeSetting chunkOverlapSetting (by decide) data meta

/-- Witness for the amended C2 at a concrete input: the single overview chunk
produced for `{"name": "Acme"}`. -/
theorem c2_chunk_bound_witness :
    c2SmallChunk.page_content ≠ "" ∧
    (c2SmallChunk.page_content.length : Int) ≤ chunkSizeSetting * 2 :=
  c2_chunk_bound_amended c2SmallData [] c2SmallChunk (by decide)
